import Mathlib

/-!
Verification development for the GEngine ECS runtime core.

This file gives a shallow embedding, in Lean 4, of the generational handle
allocator (`Handle`, `HandlePool` from `src/core/containers/handle.h`), the
packed per-component storage (`ComponentArray` from
`src/core/ecs/ComponentArray.h`), the signature matching engine
(`SystemManager` from `src/core/ecs/SystemManager.h`) and the `World` facade
(`src/core/ecs/World.h`), and proves or refutes the frozen specification
claims about them.

Modelling conventions:
- machine integers (`uint32_t`, `uint64_t`) are `Nat`; overflow is made
  explicit with `% 2 ^ 32` exactly where the C++ type wraps (the per-slot
  version counter increment);
- raw arrays and `std::vector` are `List`s; an indexed read uses `getD`,
  which is in bounds in every reachable state;
- `std::unordered_map` is an association list with unique keys
  (`mapAssign` models `m[k] = v`, `mapErase` models `m.erase(k)`,
  `mapIndex` models the default-inserting `m[k]` read);
- debug assertions (`GE_ASSERT` / `assert`) and out-of-bounds vector
  accesses are modelled as `Option`-failure (`none`): a `some` result is an
  execution that neither aborts nor touches memory out of bounds.
-/

namespace GEngine


/-- Width bound of the 32-bit machine words used by the handle system. -/
def U32 : Nat := 2 ^ 32

-- ================================================================

--  Handle  (src/core/containers/handle.h)

-- ================================================================

/-- A 64-bit handle value: 32-bit version in the high bits, 32-bit index in
the low bits (`Handle<T>` in `handle.h`). -/
structure Handle where
  value : Nat
deriving DecidableEq, Repr

namespace Handle

/-- Model of `Handle::INVALID = std::numeric_limits<uint64_t>::max()`. -/
def INVALID : Nat := 2 ^ 64 - 1

/-- The default-constructed, invalid handle. -/
def invalid : Handle := ⟨INVALID⟩

/-- Model of `Handle::Create(index, version) = (uint64(version) << 32) | uint64(index)`. -/
def Create (index version : Nat) : Handle :=
  ⟨(version <<< 32) ||| index⟩

/-- Model of `Handle::GetIndex() = value & 0xFFFFFFFF`. -/
def GetIndex (h : Handle) : Nat := h.value &&& (2 ^ 32 - 1)

/-- Model of `Handle::GetVersion() = value >> 32`. -/
def GetVersion (h : Handle) : Nat := h.value >>> 32

/-- Model of `Handle::IsValid() = (value != INVALID)`. -/
def IsValid (h : Handle) : Bool := h.value != INVALID

end Handle

-- ================================================================

--  HandlePool  (src/core/containers/handle.h)

-- ================================================================

/-- State of a `HandlePool<T>`: fixed capacity, a version counter per slot,
and a stack of free slot indices (`freeIndices` is the backing array,
`freeCount` the stack height). -/
structure HandlePool where
  capacity : Nat
  freeCount : Nat
  versions : List Nat
  freeIndices : List Nat
deriving DecidableEq, Repr

namespace HandlePool

/-- The constructor `HandlePool(capacity)`: all versions zero, free stack
filled with `freeIndices[i] = capacity - 1 - i` and `freeCount = capacity`. -/
def init (capacity : Nat) : HandlePool :=
  { capacity := capacity
    freeCount := capacity
    versions := List.replicate capacity 0
    freeIndices := (List.range capacity).map (fun i => capacity - 1 - i) }

/-- Model of `HandlePool::Allocate`: return the invalid handle if the pool is
exhausted, otherwise pop a free index and pack it with the slot version. -/
def Allocate (p : HandlePool) : Handle × HandlePool :=
  if p.freeCount = 0 then
    (Handle.invalid, p)
  else
    let freeCount := p.freeCount - 1
    let index := p.freeIndices.getD freeCount 0
    let version := p.versions.getD index 0
    (Handle.Create index version, { p with freeCount := freeCount })

/-- Model of `HandlePool::IsValid`: reject the sentinel and out-of-range indices,
then compare the stored slot version with the handle version. -/
def IsValid (p : HandlePool) (h : Handle) : Bool :=
  if !h.IsValid then false
  else if decide (p.capacity ≤ h.GetIndex) then false
  else p.versions.getD h.GetIndex 0 == h.GetVersion

/-- Model of `HandlePool::Release`: no-op on the sentinel; asserts the index is in
range and the handle is still valid (an abort is `none`); then bumps the
slot version (a 32-bit increment) and pushes the index on the free stack. -/
def Release (p : HandlePool) (h : Handle) : Option HandlePool :=
  if !h.IsValid then some p
  else
    let index := h.GetIndex
    if decide (index < p.capacity) && p.IsValid h then
      some { p with
              versions := p.versions.set index ((p.versions.getD index 0 + 1) % U32)
              freeIndices := p.freeIndices.set p.freeCount index
              freeCount := p.freeCount + 1 }
    else none

end HandlePool

-- ================================================================

--  Pool call traces

-- ================================================================

/-- One client call on a `HandlePool`. -/
inductive PoolOp where
  | alloc : PoolOp
  | release : Handle → PoolOp
deriving DecidableEq, Repr

/-- Execute one pool call; `none` is a debug-assertion abort. -/
def execPoolOp (p : HandlePool) : PoolOp → Option HandlePool
  | .alloc => some p.Allocate.2
  | .release h => p.Release h

/-- Execute a sequence of pool calls. -/
def runPoolOps (p : HandlePool) : List PoolOp → Option HandlePool
  | [] => some p
  | op :: rest => (execPoolOp p op).bind (fun q => runPoolOps q rest)

/-- Number of `Release` calls in a trace. -/
def relCount : List PoolOp → Nat
  | [] => 0
  | .alloc :: rest => relCount rest
  | .release _ :: rest => relCount rest + 1

/-- Reachable-state invariant of a pool: the version array has exactly
`capacity` entries, every free index is in range, and an empty pool has an
empty free stack. -/
structure PoolInv (p : HandlePool) : Prop where
  ver_len : p.versions.length = p.capacity
  free_lt : ∀ x ∈ p.freeIndices, x < p.capacity
  cap_zero : p.capacity = 0 → p.freeCount = 0

-- ================================================================

--  Association-list model of std::unordered_map

-- ================================================================

/-- Model of `m[k] = v` (an `operator[]` assignment): replace the binding of `k` in
place, or append a fresh binding. -/
def mapAssign {β : Type} : List (Nat × β) → Nat → β → List (Nat × β)
  | [], k, v => [(k, v)]
  | (k1, v1) :: rest, k, v =>
    if k1 = k then (k, v) :: rest else (k1, v1) :: mapAssign rest k v

/-- Model of `m.erase(k)`: drop the binding of `k`, if any. -/
def mapErase {β : Type} : List (Nat × β) → Nat → List (Nat × β)
  | [], _ => []
  | (k1, v1) :: rest, k =>
    if k1 = k then rest else (k1, v1) :: mapErase rest k

-- ================================================================

--  ComponentArray  (src/core/ecs/ComponentArray.h)

-- ================================================================

/-- Packed storage for one component type: parallel dense arrays
(`components_`, `entities_`) plus the two index maps
`entityToComponentMap_ : entity index -> dense index` and
`componentToEntityMap_ : dense index -> entity index`. -/
structure ComponentArray (α : Type) where
  components : List α
  entities : List Handle
  entityToComponentMap : List (Nat × Nat)
  componentToEntityMap : List (Nat × Nat)
deriving DecidableEq, Repr

namespace ComponentArray

/-- A freshly constructed, empty storage. -/
def empty {α : Type} : ComponentArray α := ⟨[], [], [], []⟩

/-- Model of `InsertData`: asserts that the entity index is not already present
(`none` on violation), then appends to the dense tail and records both
index maps. -/
def InsertData {α : Type} (ca : ComponentArray α) (e : Handle) (data : α) :
    Option (ComponentArray α) :=
  let entityIdx := e.GetIndex
  if (ca.entityToComponentMap.lookup entityIdx).isSome then none
  else
    let newIndex := ca.components.length
    some { components := ca.components ++ [data]
           entities := ca.entities ++ [e]
           entityToComponentMap := mapAssign ca.entityToComponentMap entityIdx newIndex
           componentToEntityMap := mapAssign ca.componentToEntityMap newIndex entityIdx }

/-- Model of `RemoveData`: no-op if the entity index is absent; otherwise move the
last dense element into the removed slot, update both maps for the moved
entity, pop the tail and erase the removed bindings. -/
def RemoveData {α : Type} [Inhabited α] (ca : ComponentArray α) (e : Handle) :
    ComponentArray α :=
  let entityIdx := e.GetIndex
  match ca.entityToComponentMap.lookup entityIdx with
  | none => ca
  | some indexToRemove =>
    let lastIndex := ca.components.length - 1
    if indexToRemove = lastIndex then
      { components := ca.components.dropLast
        entities := ca.entities.dropLast
        entityToComponentMap := mapErase ca.entityToComponentMap entityIdx
        componentToEntityMap := mapErase ca.componentToEntityMap lastIndex }
    else
      let movedEntityIdx := (ca.entities.getD lastIndex Handle.invalid).GetIndex
      { components :=
          (ca.components.set indexToRemove (ca.components.getD lastIndex default)).dropLast
        entities :=
          (ca.entities.set indexToRemove (ca.entities.getD lastIndex Handle.invalid)).dropLast
        entityToComponentMap :=
          mapErase (mapAssign ca.entityToComponentMap movedEntityIdx indexToRemove) entityIdx
        componentToEntityMap :=
          mapErase (mapAssign ca.componentToEntityMap indexToRemove movedEntityIdx) lastIndex }

/-- Model of `GetData` as a checked read: the stored value of `e`, or `none` where
the source asserts ("retrieving component that doesn't exist"). -/
def GetData? {α : Type} (ca : ComponentArray α) (e : Handle) : Option α :=
  (ca.entityToComponentMap.lookup e.GetIndex).bind (fun j => ca.components[j]?)

/-- Model of `HasData`: membership of the entity index in the index map. -/
def HasData {α : Type} (ca : ComponentArray α) (e : Handle) : Bool :=
  (ca.entityToComponentMap.lookup e.GetIndex).isSome

/-- Model of `EntityDestroyed` delegates to `RemoveData`. -/
def EntityDestroyed {α : Type} [Inhabited α] (ca : ComponentArray α) (e : Handle) :
    ComponentArray α :=
  ca.RemoveData e

/-- Model of `Size`: the dense component count. -/
def Size {α : Type} (ca : ComponentArray α) : Nat := ca.components.length

/-- Model of `GetEntities`: the dense entity array. -/
def GetEntities {α : Type} (ca : ComponentArray α) : List Handle := ca.entities

/-- The entity index stored at dense slot `j`. -/
def idxAt {α : Type} (ca : ComponentArray α) (j : Nat) : Nat :=
  (ca.entities.getD j Handle.invalid).GetIndex

end ComponentArray

-- ================================================================

--  ComponentArray call traces and the packed-array invariant

-- ================================================================

/-- One client call on a `ComponentArray`. -/
inductive CompOp (α : Type) where
  | ins (e : Handle) (v : α)
  | rem (e : Handle)
deriving DecidableEq, Repr

/-- Execute one storage call; `none` is a debug-assertion abort. -/
def execCompOp {α : Type} [Inhabited α] (ca : ComponentArray α) :
    CompOp α → Option (ComponentArray α)
  | .ins e v => ca.InsertData e v
  | .rem e => some (ca.RemoveData e)

/-- Execute a sequence of storage calls. -/
def runCompOps {α : Type} [Inhabited α] (ca : ComponentArray α) :
    List (CompOp α) → Option (ComponentArray α)
  | [] => some ca
  | op :: rest => (execCompOp ca op).bind (fun cb => runCompOps cb rest)

/-- One step of the specification-side model of the same call: a flat map
from entity index to the value last inserted for it. -/
def specApply {α : Type} (m : List (Nat × α)) : CompOp α → List (Nat × α)
  | .ins e v => mapAssign m e.GetIndex v
  | .rem e => mapErase m e.GetIndex

/-- The specification-side model after a trace, starting from empty: for
every entity currently holding the component, the value last
inserted/assigned for it. -/
def specModel {α : Type} (ops : List (CompOp α)) : List (Nat × α) :=
  ops.foldl specApply []

/-- Packed-array integrity invariant, tying a `ComponentArray` to the
specification-side model `m`: the dense arrays are parallel and gap-free,
both index maps are exactly the graph of the dense entity array (hence
mutually inverse), the stored data agrees with the model, and the dense
count equals the number of holders. -/
structure ArrInv {α : Type} (ca : ComponentArray α) (m : List (Nat × α)) : Prop where
  len_eq : ca.entities.length = ca.components.length
  e2c_iff : ∀ k j, ca.entityToComponentMap.lookup k = some j ↔
      (j < ca.entities.length ∧ ca.idxAt j = k)
  c2e_iff : ∀ j k, ca.componentToEntityMap.lookup j = some k ↔
      (j < ca.entities.length ∧ ca.idxAt j = k)
  data_eq : ∀ k, m.lookup k =
      (ca.entityToComponentMap.lookup k).bind (fun j => ca.components[j]?)
  size_eq : ca.components.length = m.length
  e2c_nodup : (ca.entityToComponentMap.map Prod.fst).Nodup
  c2e_nodup : (ca.componentToEntityMap.map Prod.fst).Nodup
  m_nodup : (m.map Prod.fst).Nodup

/-- A concrete trace for the C4 witness: insert two components and remove
the first, exercising the swap-with-last path. -/
def C4ops : List (CompOp Nat) :=
  [CompOp.ins (Handle.Create 0 0) 5, CompOp.ins (Handle.Create 1 0) 7,
   CompOp.rem (Handle.Create 0 0)]

-- ================================================================

--  Signatures and SystemManager  (src/core/ecs/SystemManager.h,

--  src/core/ecs/ComponentRegistry.h)

-- ================================================================

/-- Model of `MAX_COMPONENTS` from `ComponentRegistry.h`. -/
def MAX_COMPONENTS : Nat := 128

/-- A `Signature` is a `std::bitset<MAX_COMPONENTS>`: the set of component
type IDs an entity owns / a system requires. -/
abbrev Signature := Finset (Fin MAX_COMPONENTS)

/-- The bitset test `(entitySignature & systemSignature) == systemSignature`
from `EntitySignatureChanged`. -/
def sigMatches (entitySig sysSig : Signature) : Bool :=
  entitySig ∩ sysSig == sysSig

/-- State of the `SystemManager`: the `signatures_` and `systems_` maps,
keyed by system type (`std::type_index`, modelled as `Nat`); each system
holds its `std::set<Entity>` of matching entities. -/
structure SystemManagerState where
  signatures : List (Nat × Signature)
  systems : List (Nat × Finset Handle)
deriving DecidableEq

namespace SystemManagerState

/-- A freshly constructed `SystemManager`. -/
def empty : SystemManagerState := ⟨[], []⟩

/-- Model of `RegisterSystem<T>`: asserts the type is not yet registered (`none` on
violation), then stores a fresh system with an empty entity set. -/
def RegisterSystem (sm : SystemManagerState) (sysId : Nat) :
    Option SystemManagerState :=
  if (sm.systems.lookup sysId).isSome then none
  else some { sm with systems := (sysId, (∅ : Finset Handle)) :: sm.systems }

/-- Model of `SetSignature<T>`: asserts the system exists; note that
`signatures_.insert({type, signature})` does NOT overwrite an existing
binding (`std::unordered_map::insert` semantics). -/
def SetSignature (sm : SystemManagerState) (sysId : Nat) (sig : Signature) :
    Option SystemManagerState :=
  if (sm.systems.lookup sysId).isNone then none
  else some { sm with signatures :=
    if (sm.signatures.lookup sysId).isSome then sm.signatures
    else (sysId, sig) :: sm.signatures }

/-- Model of `EntityDestroyed`: erase the entity from every system's set. -/
def EntityDestroyed (sm : SystemManagerState) (e : Handle) : SystemManagerState :=
  { sm with systems := sm.systems.map (fun kv => (kv.1, kv.2.erase e)) }

/-- The `EntitySignatureChanged` loop over `systems_`: for each system read
`signatures_[type]` with `operator[]` (default-inserting an empty signature
when the type has none yet) and insert/erase the entity by the match test. -/
def escGo (e : Handle) (entitySig : Signature) :
    List (Nat × Finset Handle) → List (Nat × Signature) →
      List (Nat × Finset Handle) × List (Nat × Signature)
  | [], sigs => ([], sigs)
  | (sysId, ents) :: rest, sigs =>
    let sysSig := (sigs.lookup sysId).getD ∅
    let sigs1 := match sigs.lookup sysId with
      | some _ => sigs
      | none => (sysId, (∅ : Signature)) :: sigs
    let ents1 := if sigMatches entitySig sysSig then insert e ents else ents.erase e
    let res := escGo e entitySig rest sigs1
    ((sysId, ents1) :: res.1, res.2)

/-- Model of `EntitySignatureChanged`. -/
def EntitySignatureChanged (sm : SystemManagerState) (e : Handle)
    (entitySig : Signature) : SystemManagerState :=
  { signatures := (escGo e entitySig sm.systems sm.signatures).2
    systems := (escGo e entitySig sm.systems sm.signatures).1 }

end SystemManagerState

-- ================================================================

--  EntityManager and World  (src/core/ecs/EntityManager.h, World.h)

-- ================================================================

/-- Model of `INVALID_ENTITY` from `Entity.h`: the default-constructed handle. -/
def INVALID_ENTITY : Handle := Handle.invalid

/-- State of the `World`: the entity pool (`EntityManager` wraps a
`HandlePool`, default capacity 10000), one lazily constructed type-erased
component storage per type ID, one `Signature` per entity index, the tracked
list of allocated entities, and the `SystemManager`. Component values are
collapsed to `Nat`; the embedding is value-generic. -/
structure WorldState where
  entityManager : HandlePool
  componentArrays : List (Option (ComponentArray Nat))
  entitySignatures : List Signature
  allEntities : List Handle
  systemManager : SystemManagerState
deriving DecidableEq

namespace WorldState

/-- The `World` constructor with the entity capacity as a parameter: no
storages yet, all signatures empty, no tracked entities. The source passes
the `EntityManager` its capacity and resizes `entitySignatures_` to the same
number (both are 10000 in `World::World`). -/
def initWithCapacity (cap : Nat) : WorldState :=
  { entityManager := HandlePool.init cap
    componentArrays := List.replicate MAX_COMPONENTS none
    entitySignatures := List.replicate cap ∅
    allEntities := []
    systemManager := SystemManagerState.empty }

/-- The `World` constructor as written: entity capacity 10000. -/
def init : WorldState := initWithCapacity 10000

/-- Model of `World::CreateEntity`: allocate and append to the tracked list — the
handle is appended even when allocation failed and returned the invalid
handle. -/
def CreateEntity (w : WorldState) : Handle × WorldState :=
  let res := w.entityManager.Allocate
  (res.1, { w with entityManager := res.2, allEntities := w.allEntities ++ [res.1] })

/-- Model of `World::IsAlive`. -/
def IsAlive (w : WorldState) (e : Handle) : Bool :=
  w.entityManager.IsValid e

/-- The swap-remove idiom on the tracked entity vector
(`*it = allEntities_.back(); allEntities_.pop_back()`). -/
def swapRemoveFirst (l : List Handle) (e : Handle) : List Handle :=
  match l.findIdx? (fun x => x == e) with
  | none => l
  | some j => (l.set j (l.getD (l.length - 1) Handle.invalid)).dropLast

/-- Model of `World::DestroyEntity`: drop from the tracked list, release the handle
(the pool debug-asserts on a stale handle), notify every constructed
storage, reset the signature — `entitySignatures_[e.GetIndex()]` has no
bounds check in the source, so an out-of-range index is a `none` — and
notify the systems. -/
def DestroyEntity (w : WorldState) (e : Handle) : Option WorldState :=
  let all1 := swapRemoveFirst w.allEntities e
  match w.entityManager.Release e with
  | none => none
  | some pool1 =>
    let arrays1 := w.componentArrays.map (fun oa =>
      oa.map (fun a => a.EntityDestroyed e))
    if e.GetIndex < w.entitySignatures.length then
      some { entityManager := pool1
             componentArrays := arrays1
             entitySignatures := w.entitySignatures.set e.GetIndex ∅
             allEntities := all1
             systemManager := w.systemManager.EntityDestroyed e }
    else none

/-- Model of `World::Clear` iterates `DestroyEntity` over a copy of the tracked
list. -/
def destroyAll : List Handle → WorldState → Option WorldState
  | [], w => some w
  | e :: rest, w => (w.DestroyEntity e).bind (destroyAll rest)

/-- Model of `World::Clear`. -/
def Clear (w : WorldState) : Option WorldState :=
  destroyAll w.allEntities w

/-- Model of `World::AddComponent<T>`: insert into the (lazily created) storage —
`InsertData` asserts on a duplicate — then set the signature bit and notify
the systems. An out-of-bounds signature access is a `none`. -/
def AddComponent (w : WorldState) (t : Nat) (e : Handle) (v : Nat) :
    Option WorldState :=
  if ht : t < MAX_COMPONENTS then
    let arr := (w.componentArrays.getD t none).getD ComponentArray.empty
    match arr.InsertData e v with
    | none => none
    | some arr1 =>
      if e.GetIndex < w.entitySignatures.length then
        let signature1 := insert (⟨t, ht⟩ : Fin MAX_COMPONENTS)
          (w.entitySignatures.getD e.GetIndex ∅)
        some { w with
                componentArrays := w.componentArrays.set t (some arr1)
                entitySignatures := w.entitySignatures.set e.GetIndex signature1
                systemManager := w.systemManager.EntitySignatureChanged e signature1 }
      else none
  else none

/-- Model of `World::RemoveComponent<T>`: remove from the (lazily created) storage —
a no-op when absent — then clear the signature bit and notify the
systems. -/
def RemoveComponent (w : WorldState) (t : Nat) (e : Handle) : Option WorldState :=
  if ht : t < MAX_COMPONENTS then
    let arr := (w.componentArrays.getD t none).getD ComponentArray.empty
    let arr1 := arr.RemoveData e
    if e.GetIndex < w.entitySignatures.length then
      let signature1 := (w.entitySignatures.getD e.GetIndex ∅).erase ⟨t, ht⟩
      some { w with
              componentArrays := w.componentArrays.set t (some arr1)
              entitySignatures := w.entitySignatures.set e.GetIndex signature1
              systemManager := w.systemManager.EntitySignatureChanged e signature1 }
    else none
  else none

/-- Model of `World::HasComponent<T>` (total, `const`): `false` when the type ID is
out of range of the storage array or the storage was never constructed. -/
def HasComponent (w : WorldState) (t : Nat) (e : Handle) : Bool :=
  if t < w.componentArrays.length then
    match w.componentArrays.getD t none with
    | none => false
    | some arr => arr.HasData e
  else false

/-- Model of `World::GetComponent<T>` as a checked read through the lazily created
storage. -/
def GetComponent? (w : WorldState) (t : Nat) (e : Handle) : Option Nat :=
  if t < MAX_COMPONENTS then
    ((w.componentArrays.getD t none).getD ComponentArray.empty).GetData? e
  else none

/-- Model of `World::RegisterSystem<T>`: pass-through to the `SystemManager`. -/
def RegisterSystem (w : WorldState) (sysId : Nat) : Option WorldState :=
  (w.systemManager.RegisterSystem sysId).map
    (fun sm => { w with systemManager := sm })

/-- Model of `World::SetSystemSignature<T>`: pass-through to the `SystemManager`. -/
def SetSystemSignature (w : WorldState) (sysId : Nat) (sig : Signature) :
    Option WorldState :=
  (w.systemManager.SetSignature sysId sig).map
    (fun sm => { w with systemManager := sm })

/-- The dense entity array of the storage for type `t`, as the query sees
it: empty when the storage was never constructed (the lazy
`GetComponentArray` would create exactly this empty storage). -/
def denseOf (w : WorldState) (t : Nat) : List Handle :=
  match w.componentArrays.getD t none with
  | none => []
  | some arr => arr.GetEntities

/-- Model of `World::Query<C1,...>` observed as the produced entity sequence
(`EntityQuery::Iterator::FindNext`): walk the dense entity array of the
first listed type, keeping exactly the entities for which `HasComponent`
holds for every listed type. -/
def queryEntities (w : WorldState) (ts : List Nat) : List Handle :=
  match ts with
  | [] => []
  | t :: _ => (denseOf w t).filter (fun e => ts.all (fun c => w.HasComponent c e))

end WorldState

/-- One client call on the `World`. -/
inductive WorldOp where
  | create
  | destroy (e : Handle)
  | addComp (t : Nat) (e : Handle) (v : Nat)
  | remComp (t : Nat) (e : Handle)
  | regSystem (sysId : Nat)
  | setSig (sysId : Nat) (sig : Signature)
deriving DecidableEq

/-- Execute one world call; `none` is an abort or out-of-bounds access. -/
def execWorldOp (w : WorldState) : WorldOp → Option WorldState
  | .create => some (w.CreateEntity).2
  | .destroy e => w.DestroyEntity e
  | .addComp t e v => w.AddComponent t e v
  | .remComp t e => w.RemoveComponent t e
  | .regSystem s => w.RegisterSystem s
  | .setSig s sig => w.SetSystemSignature s sig

/-- Execute a sequence of world calls. -/
def runWorld (w : WorldState) : List WorldOp → Option WorldState
  | [] => some w
  | op :: rest => (execWorldOp w op).bind (fun w1 => runWorld w1 rest)

-- Concrete states for the witnesses, reached by running the embedded

-- operations on a small-capacity world (the `EntityManager` capacity is a

-- constructor parameter in the source; `World` passes 10000).

set_option maxRecDepth 8000

/-- A world with one live entity owning component 0. -/
def C2w : WorldState :=
  (runWorld (WorldState.initWithCapacity 4)
    [.create, .addComp 0 (Handle.Create 0 0) 1]).getD (WorldState.initWithCapacity 4)

/-- Model of `C2w` after destroying its entity. -/
def C2w1 : WorldState := (C2w.DestroyEntity (Handle.Create 0 0)).getD C2w

/-- A world with one registered system (signature `{0}`) and one live
entity. -/
def C5w : WorldState :=
  (runWorld (WorldState.initWithCapacity 4)
    [.regSystem 0, .setSig 0 {(⟨0, by decide⟩ : Fin MAX_COMPONENTS)}, .create]).getD
    (WorldState.initWithCapacity 4)

/-- Model of `C5w` after giving the entity component 0. -/
def C5w1 : WorldState := (C5w.AddComponent 0 (Handle.Create 0 0) 7).getD C5w

/-- An exhausted world: capacity 1, its only slot allocated. -/
def C10w : WorldState :=
  { entityManager := HandlePool.mk 1 0 [0] [0]
    componentArrays := List.replicate MAX_COMPONENTS none
    entitySignatures := [∅]
    allEntities := [Handle.Create 0 0]
    systemManager := SystemManagerState.empty }

/-- Recover the index from a packed handle: low 32 bits of the packed word. -/
theorem Handle.GetIndex_Create (i v : Nat) (hi : i < U32) :
    (Handle.Create i v).GetIndex = i := by
  show ((v <<< 32) ||| i) &&& (2 ^ 32 - 1) = i
  rw [Nat.and_pow_two_sub_one_eq_mod]
  apply Nat.eq_of_testBit_eq
  intro k
  rw [Nat.testBit_mod_two_pow, Nat.testBit_lor, Nat.testBit_shiftLeft]
  by_cases hk : k < 32
  · simp [hk, Nat.not_le_of_lt hk]
  · have h1 : Nat.testBit i k = false :=
      Nat.testBit_eq_false_of_lt
        (lt_of_lt_of_le hi (Nat.pow_le_pow_right (by norm_num) (Nat.le_of_not_lt hk)))
    simp [hk, h1]

/-- Recover the version from a packed handle: high 32 bits of the packed word. -/
theorem Handle.GetVersion_Create (i v : Nat) (hi : i < U32) :
    (Handle.Create i v).GetVersion = v := by
  show ((v <<< 32) ||| i) >>> 32 = v
  apply Nat.eq_of_testBit_eq
  intro k
  rw [Nat.testBit_shiftRight, Nat.testBit_lor, Nat.testBit_shiftLeft]
  have h1 : Nat.testBit i (32 + k) = false :=
    Nat.testBit_eq_false_of_lt
      (lt_of_lt_of_le hi (Nat.pow_le_pow_right (by norm_num) (by omega)))
  simp [h1]

/-- A packed handle whose index part is not all-ones is not the sentinel. -/
theorem Handle.Create_IsValid (i v : Nat) (hi : i < U32 - 1) :
    (Handle.Create i v).IsValid = true := by
  have hne : Handle.Create i v ≠ Handle.invalid := by
    intro hcontra
    have : (Handle.Create i v).GetIndex = Handle.invalid.GetIndex := by rw [hcontra]
    rw [Handle.GetIndex_Create i v (by omega)] at this
    have hinv : Handle.invalid.GetIndex = U32 - 1 := by decide
    omega
  simp only [Handle.IsValid, bne_iff_ne, ne_eq]
  intro hval
  exact hne (show Handle.Create i v = Handle.invalid from congrArg Handle.mk hval)

/-- Reading a list with a default either hits an element or the default. -/
theorem getD_mem_or_default (l : List Nat) (n : Nat) :
    l.getD n 0 ∈ l ∨ l.getD n 0 = 0 := by
  by_cases hn : n < l.length
  · left
    rw [List.getD_eq_getElem l 0 hn]
    exact List.getElem_mem hn
  · right
    simp [List.getD_eq_getElem?_getD, List.getElem?_eq_none (Nat.le_of_not_lt hn)]

/-- Lemma: `getD` after `set`: the written value inside the list, unchanged elsewhere. -/
theorem getD_set {γ : Type} (l : List γ) (n i : Nat) (x d : γ) :
    (l.set n x).getD i d = if i = n ∧ n < l.length then x else l.getD i d := by
  by_cases h : i = n ∧ n < l.length
  · obtain ⟨rfl, hn⟩ := h
    simp [List.getD_eq_getElem?_getD, List.getElem?_set_self, hn]
  · rw [if_neg h]
    by_cases hin : i = n
    · subst hin
      have hn : ¬ i < l.length := fun hc => h ⟨rfl, hc⟩
      have h1 : (l.set i x)[i]? = none :=
        List.getElem?_eq_none (by simpa using Nat.le_of_not_lt hn)
      have h2 : l[i]? = none := List.getElem?_eq_none (Nat.le_of_not_lt hn)
      simp [List.getD_eq_getElem?_getD, h1, h2]
    · simp [List.getD_eq_getElem?_getD, List.getElem?_set_ne (fun hc => hin hc.symm)]

/-- Case split for a successful `Release`. -/
theorem Release_cases (p : HandlePool) (h : Handle) (q : HandlePool)
    (hrel : p.Release h = some q) :
    (h.IsValid = false ∧ q = p) ∨
    (h.IsValid = true ∧ h.GetIndex < p.capacity ∧ p.IsValid h = true ∧
      q = { p with
              versions := p.versions.set h.GetIndex ((p.versions.getD h.GetIndex 0 + 1) % U32)
              freeIndices := p.freeIndices.set p.freeCount h.GetIndex
              freeCount := p.freeCount + 1 }) := by
  by_cases hv : h.IsValid
  · right
    rw [HandlePool.Release, if_neg (by simp [hv])] at hrel
    by_cases hc : decide (h.GetIndex < p.capacity) && p.IsValid h
    · rw [if_pos hc] at hrel
      simp only [Bool.and_eq_true, decide_eq_true_eq] at hc
      exact ⟨hv, hc.1, hc.2, (Option.some_inj.mp hrel).symm⟩
    · rw [if_neg hc] at hrel
      exact absurd hrel (by simp)
  · left
    rw [HandlePool.Release, if_pos (by simp [Bool.eq_false_iff.mpr hv])] at hrel
    exact ⟨Bool.eq_false_iff.mpr hv, (Option.some_inj.mp hrel).symm⟩

/-- Lemma: `Allocate` leaves capacity, versions and the free stack untouched. -/
theorem Allocate_snd_fields (p : HandlePool) :
    p.Allocate.2.capacity = p.capacity ∧
    p.Allocate.2.versions = p.versions ∧
    p.Allocate.2.freeIndices = p.freeIndices ∧
    p.Allocate.2.freeCount ≤ p.freeCount := by
  rw [HandlePool.Allocate]
  split <;> simp [Nat.sub_le]

/-- Every pool call preserves the capacity. -/
theorem capacity_execPoolOp (p q : HandlePool) (op : PoolOp)
    (hexec : execPoolOp p op = some q) : q.capacity = p.capacity := by
  cases op with
  | alloc =>
      cases hexec
      exact (Allocate_snd_fields p).1
  | release h =>
      rcases Release_cases p h q hexec with ⟨_, rfl⟩ | ⟨_, _, _, rfl⟩ <;> rfl

/-- Every pool call preserves the reachable-state invariant. -/
theorem PoolInv_execPoolOp (p q : HandlePool) (op : PoolOp)
    (hinv : PoolInv p) (hexec : execPoolOp p op = some q) : PoolInv q := by
  cases op with
  | alloc =>
      cases hexec
      obtain ⟨h1, h2, h3, h4⟩ := Allocate_snd_fields p
      exact ⟨h2 ▸ h1 ▸ hinv.ver_len, h3 ▸ h1 ▸ hinv.free_lt,
        fun hc => Nat.le_zero.mp (le_trans h4 (le_of_eq (hinv.cap_zero (h1 ▸ hc))))⟩
  | release h =>
      rcases Release_cases p h q hexec with ⟨_, rfl⟩ | ⟨_, hlt, _, rfl⟩
      · exact hinv
      · refine ⟨?_, ?_, ?_⟩
        · simpa using hinv.ver_len
        · intro x hx
          rcases List.mem_or_eq_of_mem_set hx with hmem | rfl
          · exact hinv.free_lt x hmem
          · exact hlt
        · intro hc
          have hc2 : p.capacity = 0 := hc
          omega

/-- Trace execution preserves the invariant. -/
theorem PoolInv_runPoolOps (ops : List PoolOp) (p q : HandlePool)
    (hrun : runPoolOps p ops = some q) (hinv : PoolInv p) : PoolInv q := by
  induction ops generalizing p with
  | nil => cases hrun; exact hinv
  | cons op rest ih =>
      rw [runPoolOps] at hrun
      rcases Option.bind_eq_some.mp hrun with ⟨p1, hexec, hrest⟩
      exact ih p1 hrest (PoolInv_execPoolOp p p1 op hinv hexec)

/-- Trace execution preserves the capacity. -/
theorem capacity_runPoolOps (ops : List PoolOp) (p q : HandlePool)
    (hrun : runPoolOps p ops = some q) : q.capacity = p.capacity := by
  induction ops generalizing p with
  | nil => cases hrun; rfl
  | cons op rest ih =>
      rw [runPoolOps] at hrun
      rcases Option.bind_eq_some.mp hrun with ⟨p1, hexec, hrest⟩
      rw [ih p1 hrest, capacity_execPoolOp p p1 op hexec]

/-- The freshly constructed pool satisfies the invariant. -/
theorem PoolInv_init (cap : Nat) : PoolInv (HandlePool.init cap) := by
  refine ⟨by simp [HandlePool.init], ?_, fun h => h⟩
  intro x hx
  simp only [HandlePool.init, List.mem_map, List.mem_range] at hx
  obtain ⟨i, hi, rfl⟩ := hx
  show cap - 1 - i < cap
  omega

/-- A slot version never decreases along a successful trace, and increases by
at most the number of `Release` calls, provided the 32-bit counter does not
wrap. -/
theorem versions_getD_mono (ops : List PoolOp) (p q : HandlePool) (i : Nat)
    (hrun : runPoolOps p ops = some q)
    (hbound : p.versions.getD i 0 + relCount ops < U32) :
    p.versions.getD i 0 ≤ q.versions.getD i 0 ∧
    q.versions.getD i 0 ≤ p.versions.getD i 0 + relCount ops := by
  induction ops generalizing p with
  | nil => cases hrun; simp
  | cons op rest ih =>
      rw [runPoolOps] at hrun
      rcases Option.bind_eq_some.mp hrun with ⟨p1, hexec, hrest⟩
      cases op with
      | alloc =>
          cases hexec
          have hv : p.Allocate.2.versions = p.versions := (Allocate_snd_fields p).2.1
          have hb : p.Allocate.2.versions.getD i 0 + relCount rest < U32 := by
            rw [hv]; simpa [relCount] using hbound
          have := ih p.Allocate.2 hrest hb
          rw [hv] at this
          simpa [relCount] using this
      | release h =>
          rcases Release_cases p h p1 hexec with ⟨_, heq⟩ | ⟨_, _, _, rfl⟩
          · rw [heq] at hrest
            have hb : p.versions.getD i 0 + relCount rest < U32 := by
              simp only [relCount] at hbound; omega
            have := ih p hrest hb
            simp only [relCount]
            omega
          · have hrec : ({ p with
                versions := p.versions.set h.GetIndex ((p.versions.getD h.GetIndex 0 + 1) % U32)
                freeIndices := p.freeIndices.set p.freeCount h.GetIndex
                freeCount := p.freeCount + 1 } : HandlePool).versions =
                p.versions.set h.GetIndex ((p.versions.getD h.GetIndex 0 + 1) % U32) := rfl
            by_cases hcase : i = h.GetIndex ∧ h.GetIndex < p.versions.length
            · have hv1 : p.versions.getD i 0 + 1 < U32 := by
                simp only [relCount] at hbound; omega
              have hnew :
                  (p.versions.set h.GetIndex
                    ((p.versions.getD h.GetIndex 0 + 1) % U32)).getD i 0 =
                  p.versions.getD i 0 + 1 := by
                rw [getD_set, if_pos hcase, ← hcase.1, Nat.mod_eq_of_lt hv1]
              have hb :
                  (p.versions.set h.GetIndex
                    ((p.versions.getD h.GetIndex 0 + 1) % U32)).getD i 0 +
                    relCount rest < U32 := by
                rw [hnew]; simp only [relCount] at hbound; omega
              have hih := ih _ hrest hb
              rw [hrec, hnew] at hih
              simp only [relCount]
              omega
            · have hnew :
                  (p.versions.set h.GetIndex
                    ((p.versions.getD h.GetIndex 0 + 1) % U32)).getD i 0 =
                  p.versions.getD i 0 := by
                rw [getD_set, if_neg hcase]
              have hb :
                  (p.versions.set h.GetIndex
                    ((p.versions.getD h.GetIndex 0 + 1) % U32)).getD i 0 +
                    relCount rest < U32 := by
                rw [hnew]; simp only [relCount] at hbound; omega
              have hih := ih _ hrest hb
              rw [hrec, hnew] at hih
              simp only [relCount]
              omega

/-- Lemma: `Allocate` on an exhausted pool: invalid handle, state untouched. -/
theorem Allocate_exhausted (p : HandlePool) (hfc : p.freeCount = 0) :
    p.Allocate = (Handle.invalid, p) := by
  simp [HandlePool.Allocate, hfc]

/-- Lemma: `Allocate` on a non-exhausted pool pops the top free index. -/
theorem Allocate_pop (p : HandlePool) (hfc : p.freeCount ≠ 0) :
    p.Allocate =
      (Handle.Create (p.freeIndices.getD (p.freeCount - 1) 0)
        (p.versions.getD (p.freeIndices.getD (p.freeCount - 1) 0) 0),
       { p with freeCount := p.freeCount - 1 }) := by
  simp [HandlePool.Allocate, hfc]

/-- The sentinel handle is never pool-valid. -/
theorem IsValid_invalid (p : HandlePool) : p.IsValid Handle.invalid = false := by
  have h : Handle.invalid.IsValid = false := by decide
  simp [HandlePool.IsValid, h]

/-- Claim C1: generation safety of the handle pool: along any successful
trace from a fresh pool, a handle obtained from `Allocate` is reported
invalid by `IsValid` at every point after a `Release` of its index, even if
later calls reuse the index, provided the 32-bit version counter of the slot
does not wrap (the trace performs fewer than `2^32` releases of it). The
capacity bound is the `uint32_t` type bound of the source. -/
theorem C1_generation_safety
    (cap : Nat) (hcap : cap < U32)
    (ops1 mid post : List PoolOp) (hrel : Handle)
    (p1 pMid pRel p3 : HandlePool)
    (hrun1 : runPoolOps (HandlePool.init cap) ops1 = some p1)
    (hmid : runPoolOps p1.Allocate.2 mid = some pMid)
    (hidx : hrel.GetIndex = p1.Allocate.1.GetIndex)
    (hrelease : pMid.Release hrel = some pRel)
    (hpost : runPoolOps pRel post = some p3)
    (hnowrap : p1.Allocate.1.GetVersion + relCount mid + 1 + relCount post < U32) :
    p3.IsValid p1.Allocate.1 = false := by
  by_cases hfc : p1.freeCount = 0
  · rw [Allocate_exhausted p1 hfc]
    exact IsValid_invalid p3
  · obtain ⟨idx, hidxeq⟩ : ∃ n, p1.freeIndices.getD (p1.freeCount - 1) 0 = n := ⟨_, rfl⟩
    have hinv1 : PoolInv p1 := PoolInv_runPoolOps ops1 _ p1 hrun1 (PoolInv_init cap)
    have hcap1 : p1.capacity = cap := capacity_runPoolOps ops1 _ p1 hrun1
    have hcappos : 0 < cap := by
      rcases Nat.eq_zero_or_pos cap with hc0 | hpos
      · exact absurd (hinv1.cap_zero (by rw [hcap1, hc0])) hfc
      · exact hpos
    have hidxlt : idx < cap := by
      rcases getD_mem_or_default p1.freeIndices (p1.freeCount - 1) with hmem | hz
      · rw [hidxeq] at hmem
        exact hcap1 ▸ hinv1.free_lt idx hmem
      · rw [hidxeq] at hz
        omega
    have hidxU : idx < U32 := lt_trans hidxlt hcap
    have hh1 : p1.Allocate.1 = Handle.Create idx (p1.versions.getD idx 0) := by
      rw [Allocate_pop p1 hfc, ← hidxeq]
    have hhidx : p1.Allocate.1.GetIndex = idx := by
      rw [hh1, Handle.GetIndex_Create idx _ hidxU]
    have hhver : p1.Allocate.1.GetVersion = p1.versions.getD idx 0 := by
      rw [hh1, Handle.GetVersion_Create idx _ hidxU]
    have hrelvalid : hrel.IsValid = true := by
      by_contra hc
      have hval : hrel.value = Handle.INVALID := by
        by_contra hv
        exact hc (by simp [Handle.IsValid, hv])
      have hgi : hrel.GetIndex = U32 - 1 := by
        show hrel.value &&& (2 ^ 32 - 1) = U32 - 1
        rw [hval]
        decide
      rw [hidx, hhidx] at hgi
      omega
    rcases Release_cases pMid hrel pRel hrelease with ⟨hvf, _⟩ | ⟨_, hltc, hvalidrel, hreleq⟩
    · rw [hrelvalid] at hvf
      exact absurd hvf (by simp)
    · have hinvA : PoolInv p1.Allocate.2 := PoolInv_execPoolOp p1 _ .alloc hinv1 rfl
      have hinvM : PoolInv pMid := PoolInv_runPoolOps mid _ pMid hmid hinvA
      have hcapM : pMid.capacity = cap := by
        rw [capacity_runPoolOps mid _ pMid hmid, (Allocate_snd_fields p1).1, hcap1]
      have hAv : p1.Allocate.2.versions = p1.versions := (Allocate_snd_fields p1).2.1
      have hb1 : p1.Allocate.2.versions.getD idx 0 + relCount mid < U32 := by
        rw [hAv, ← hhver]
        omega
      have hmono1 := versions_getD_mono mid p1.Allocate.2 pMid idx hmid hb1
      rw [hAv] at hmono1
      have hlenM : idx < pMid.versions.length := by
        rw [hinvM.ver_len, hcapM]
        exact hidxlt
      have hrelidx : hrel.GetIndex = idx := by rw [hidx, hhidx]
      have hmodlt : pMid.versions.getD idx 0 + 1 < U32 := by
        rw [← hhver] at hmono1
        omega
      have hvrel : pRel.versions.getD idx 0 = pMid.versions.getD idx 0 + 1 := by
        rw [hreleq]
        show (pMid.versions.set hrel.GetIndex
          ((pMid.versions.getD hrel.GetIndex 0 + 1) % U32)).getD idx 0 = _
        rw [hrelidx, getD_set, if_pos ⟨rfl, hlenM⟩, Nat.mod_eq_of_lt hmodlt]
      have hb2 : pRel.versions.getD idx 0 + relCount post < U32 := by
        rw [hvrel, ← hhver] at *
        omega
      have hmono2 := versions_getD_mono post pRel p3 idx hpost hb2
      have hcapRel : pRel.capacity = pMid.capacity := by rw [hreleq]
      have hcap3 : p3.capacity = cap := by
        rw [capacity_runPoolOps post pRel p3 hpost, hcapRel, hcapM]
      have hvalid_h : p1.Allocate.1.IsValid = true := by
        rw [hh1]
        exact Handle.Create_IsValid idx _ (by omega)
      have hv3 : p1.Allocate.1.GetVersion < p3.versions.getD idx 0 := by
        rw [hhver]
        omega
      rw [HandlePool.IsValid, hvalid_h]
      simp only [Bool.not_true, Bool.false_eq_true, if_false]
      rw [hhidx, hcap3, if_neg (by simpa using Nat.not_le_of_lt hidxlt)]
      exact beq_eq_false_iff_ne.mpr (by omega)

/-- Witness for C1 at a concrete trace: capacity-2 pool, allocate, release
the allocated handle, observe it invalid. -/
theorem C1_generation_safety_witness :
    (HandlePool.mk 2 2 [1, 0] [1, 0]).IsValid ((HandlePool.init 2).Allocate.1) = false :=
  C1_generation_safety 2 (by decide) [] [] [] (Handle.Create 0 0)
    (HandlePool.init 2) ((HandlePool.init 2).Allocate.2)
    (HandlePool.mk 2 2 [1, 0] [1, 0]) (HandlePool.mk 2 2 [1, 0] [1, 0])
    rfl rfl (by decide) (by decide) rfl (by decide)

/-- Claim C7: allocation exhaustion is a clean failure: with `freeCount = 0`,
`Allocate` returns the invalid handle and the pool state (capacity, versions,
free stack, free count) is completely unchanged; with `freeCount ≠ 0` it pops
the top free index and returns `Handle::Create(index, versions[index])`,
decrementing only the free count. -/
theorem C7_allocate_exhaustion (p : HandlePool) :
    (p.freeCount = 0 → p.Allocate = (Handle.invalid, p)) ∧
    (p.freeCount ≠ 0 →
      p.Allocate =
        (Handle.Create (p.freeIndices.getD (p.freeCount - 1) 0)
          (p.versions.getD (p.freeIndices.getD (p.freeCount - 1) 0) 0),
         { p with freeCount := p.freeCount - 1 })) := by
  constructor
  · intro h0
    simp [HandlePool.Allocate, h0]
  · intro hne
    simp [HandlePool.Allocate, hne]

/-- Witness for C7 at concrete pools: an exhausted pool of capacity 1 and the
freshly initialised pool of capacity 2. -/
theorem C7_allocate_exhaustion_witness :
    (HandlePool.mk 1 0 [5] [0]).Allocate = (Handle.invalid, HandlePool.mk 1 0 [5] [0]) ∧
    (HandlePool.init 2).Allocate =
      (Handle.Create 0 0, { HandlePool.init 2 with freeCount := 1 }) := by
  refine ⟨(C7_allocate_exhaustion _).1 rfl, ?_⟩
  have h := (C7_allocate_exhaustion (HandlePool.init 2)).2 (by decide)
  simpa using h

/-- Claim C8: slot-reuse scenario on a pool of capacity 2: allocate h1 and
h2, release h1, allocate again: the new handle reuses h1's index with the
version incremented by one, and h1 is now reported invalid. -/
theorem C8_slot_reuse :
    (HandlePool.init 2).Allocate.1 = Handle.Create 0 0 ∧
    (HandlePool.init 2).Allocate.2.Allocate.1 = Handle.Create 1 0 ∧
    ((HandlePool.init 2).Allocate.2.Allocate.2).Release (Handle.Create 0 0) =
      some (HandlePool.mk 2 1 [1, 0] [0, 0]) ∧
    (HandlePool.mk 2 1 [1, 0] [0, 0]).Allocate.1.GetIndex = (Handle.Create 0 0).GetIndex ∧
    (HandlePool.mk 2 1 [1, 0] [0, 0]).Allocate.1.GetVersion =
      (Handle.Create 0 0).GetVersion + 1 ∧
    (HandlePool.mk 2 1 [1, 0] [0, 0]).Allocate.2.IsValid (Handle.Create 0 0) = false := by
  decide

theorem lookup_cons_self {β : Type} (k : Nat) (v : β) (rest : List (Nat × β)) :
    List.lookup k ((k, v) :: rest) = some v := by
  simp [List.lookup_cons]

theorem lookup_cons_ne {β : Type} (k k2 : Nat) (v2 : β) (rest : List (Nat × β))
    (h : k ≠ k2) : List.lookup k ((k2, v2) :: rest) = List.lookup k rest := by
  simp [List.lookup_cons, beq_false_of_ne h]

theorem lookup_none_iff_keys {β : Type} (m : List (Nat × β)) (k : Nat) :
    m.lookup k = none ↔ k ∉ m.map Prod.fst := by
  induction m with
  | nil => simp [List.lookup]
  | cons hd rest ih =>
      obtain ⟨k2, v2⟩ := hd
      by_cases h2 : k = k2
      · subst h2
        rw [lookup_cons_self]
        simp
      · rw [lookup_cons_ne _ _ _ _ h2]
        simp only [List.map_cons, List.mem_cons]
        rw [ih]
        tauto

theorem lookup_mapAssign_self {β : Type} (m : List (Nat × β)) (k : Nat) (v : β) :
    (mapAssign m k v).lookup k = some v := by
  induction m with
  | nil => exact lookup_cons_self k v []
  | cons hd rest ih =>
      obtain ⟨k1, v1⟩ := hd
      by_cases h : k1 = k
      · rw [mapAssign, if_pos h, lookup_cons_self]
      · rw [mapAssign, if_neg h, lookup_cons_ne _ _ _ _ (fun hc => h hc.symm)]
        exact ih

theorem lookup_mapAssign_ne {β : Type} (m : List (Nat × β)) (k k1 : Nat) (v : β)
    (h : k1 ≠ k) : (mapAssign m k v).lookup k1 = m.lookup k1 := by
  induction m with
  | nil => exact lookup_cons_ne _ _ _ _ h
  | cons hd rest ih =>
      obtain ⟨k2, v2⟩ := hd
      by_cases h2 : k2 = k
      · rw [mapAssign, if_pos h2, lookup_cons_ne _ _ _ _ h, h2,
          lookup_cons_ne _ _ _ _ (h2 ▸ h)]
      · by_cases h3 : k1 = k2
        · subst h3
          rw [mapAssign, if_neg h2, lookup_cons_self, lookup_cons_self]
        · rw [mapAssign, if_neg h2, lookup_cons_ne _ _ _ _ h3,
            lookup_cons_ne _ _ _ _ h3]
          exact ih

theorem lookup_mapErase_ne {β : Type} (m : List (Nat × β)) (k k1 : Nat)
    (h : k1 ≠ k) : (mapErase m k).lookup k1 = m.lookup k1 := by
  induction m with
  | nil => rfl
  | cons hd rest ih =>
      obtain ⟨k2, v2⟩ := hd
      by_cases h2 : k2 = k
      · subst h2
        rw [mapErase, if_pos rfl, lookup_cons_ne _ _ _ _ h]
      · by_cases h3 : k1 = k2
        · subst h3
          rw [mapErase, if_neg h2, lookup_cons_self, lookup_cons_self]
        · rw [mapErase, if_neg h2, lookup_cons_ne _ _ _ _ h3,
            lookup_cons_ne _ _ _ _ h3]
          exact ih

theorem mem_keys_mapErase {β : Type} (m : List (Nat × β)) (k k1 : Nat)
    (h : k1 ∈ (mapErase m k).map Prod.fst) : k1 ∈ m.map Prod.fst := by
  induction m with
  | nil => exact absurd h (by simp [mapErase])
  | cons hd rest ih =>
      obtain ⟨k2, v2⟩ := hd
      by_cases h2 : k2 = k
      · rw [mapErase, if_pos h2] at h
        simp only [List.map_cons, List.mem_cons]
        exact Or.inr h
      · rw [mapErase, if_neg h2, List.map_cons] at h
        simp only [List.mem_cons] at h
        simp only [List.map_cons, List.mem_cons]
        rcases h with h | h
        · exact Or.inl h
        · exact Or.inr (ih h)

theorem lookup_mapErase_self {β : Type} (m : List (Nat × β)) (k : Nat)
    (hnd : (m.map Prod.fst).Nodup) : (mapErase m k).lookup k = none := by
  induction m with
  | nil => rfl
  | cons hd rest ih =>
      obtain ⟨k2, v2⟩ := hd
      simp only [List.map_cons, List.nodup_cons] at hnd
      by_cases h2 : k2 = k
      · subst h2
        rw [mapErase, if_pos rfl]
        exact (lookup_none_iff_keys rest k2).mpr hnd.1
      · rw [mapErase, if_neg h2, lookup_cons_ne _ _ _ _ (fun hc => h2 hc.symm)]
        exact ih hnd.2

theorem mem_keys_mapAssign {β : Type} (m : List (Nat × β)) (k : Nat) (v : β) (k1 : Nat) :
    k1 ∈ (mapAssign m k v).map Prod.fst ↔ (k1 ∈ m.map Prod.fst ∨ k1 = k) := by
  induction m with
  | nil => simp [mapAssign]
  | cons hd rest ih =>
      obtain ⟨k2, v2⟩ := hd
      by_cases h2 : k2 = k
      · subst h2
        rw [mapAssign, if_pos rfl]
        simp only [List.map_cons, List.mem_cons]
        tauto
      · rw [mapAssign, if_neg h2]
        simp only [List.map_cons, List.mem_cons, ih]
        tauto

theorem nodup_keys_mapAssign {β : Type} (m : List (Nat × β)) (k : Nat) (v : β)
    (hnd : (m.map Prod.fst).Nodup) : ((mapAssign m k v).map Prod.fst).Nodup := by
  induction m with
  | nil => simp [mapAssign]
  | cons hd rest ih =>
      obtain ⟨k2, v2⟩ := hd
      simp only [List.map_cons, List.nodup_cons] at hnd
      by_cases h2 : k2 = k
      · subst h2
        rw [mapAssign, if_pos rfl]
        simp only [List.map_cons, List.nodup_cons]
        exact ⟨hnd.1, hnd.2⟩
      · rw [mapAssign, if_neg h2]
        simp only [List.map_cons, List.nodup_cons]
        refine ⟨?_, ih hnd.2⟩
        rw [mem_keys_mapAssign]
        rintro (h | rfl)
        · exact hnd.1 h
        · exact h2 rfl

theorem nodup_keys_mapErase {β : Type} (m : List (Nat × β)) (k : Nat)
    (hnd : (m.map Prod.fst).Nodup) : ((mapErase m k).map Prod.fst).Nodup := by
  induction m with
  | nil => simp [mapErase]
  | cons hd rest ih =>
      obtain ⟨k2, v2⟩ := hd
      simp only [List.map_cons, List.nodup_cons] at hnd
      by_cases h2 : k2 = k
      · rw [mapErase, if_pos h2]
        exact hnd.2
      · rw [mapErase, if_neg h2]
        simp only [List.map_cons, List.nodup_cons]
        exact ⟨fun h => hnd.1 (mem_keys_mapErase rest k k2 h), ih hnd.2⟩

theorem length_mapAssign_absent {β : Type} (m : List (Nat × β)) (k : Nat) (v : β)
    (h : m.lookup k = none) : (mapAssign m k v).length = m.length + 1 := by
  induction m with
  | nil => simp [mapAssign]
  | cons hd rest ih =>
      obtain ⟨k2, v2⟩ := hd
      by_cases h2 : k2 = k
      · subst h2
        rw [lookup_cons_self] at h
        exact absurd h (by simp)
      · rw [lookup_cons_ne _ _ _ _ (fun hc => h2 hc.symm)] at h
        rw [mapAssign, if_neg h2]
        simp [ih h]

theorem length_mapErase_present {β : Type} (m : List (Nat × β)) (k : Nat)
    (h : (m.lookup k).isSome) : (mapErase m k).length + 1 = m.length := by
  induction m with
  | nil => exact absurd h (by simp [List.lookup])
  | cons hd rest ih =>
      obtain ⟨k2, v2⟩ := hd
      by_cases h2 : k2 = k
      · rw [mapErase, if_pos h2]
        simp
      · rw [lookup_cons_ne _ _ _ _ (fun hc => h2 hc.symm)] at h
        rw [mapErase, if_neg h2]
        simp only [List.length_cons]
        rw [← ih h]

theorem mapErase_absent {β : Type} (m : List (Nat × β)) (k : Nat)
    (h : m.lookup k = none) : mapErase m k = m := by
  induction m with
  | nil => rfl
  | cons hd rest ih =>
      obtain ⟨k2, v2⟩ := hd
      by_cases h2 : k2 = k
      · subst h2
        rw [lookup_cons_self] at h
        exact absurd h (by simp)
      · rw [lookup_cons_ne _ _ _ _ (fun hc => h2 hc.symm)] at h
        rw [mapErase, if_neg h2, ih h]

/-- Lemma: `getElem?` after `set`: the written value inside the list, unchanged
elsewhere. -/
theorem getElem?_set_if {γ : Type} (l : List γ) (n i : Nat) (x : γ) :
    (l.set n x)[i]? = if i = n ∧ n < l.length then some x else l[i]? := by
  by_cases h : i = n ∧ n < l.length
  · obtain ⟨rfl, hn2⟩ := h
    rw [if_pos ⟨rfl, hn2⟩]
    simp [List.getElem?_set_self, hn2]
  · rw [if_neg h]
    by_cases hin : i = n
    · subst hin
      have hn2 : ¬ i < l.length := fun hc => h ⟨rfl, hc⟩
      rw [List.getElem?_eq_none (by simpa using Nat.le_of_not_lt hn2),
        List.getElem?_eq_none (Nat.le_of_not_lt hn2)]
    · rw [List.getElem?_set_ne (fun hc => hin hc.symm)]

/-- Lemma: `getElem?` after `dropLast`. -/
theorem getElem?_dropLast {γ : Type} (l : List γ) (i : Nat) :
    l.dropLast[i]? = if i < l.length - 1 then l[i]? else none := by
  rw [List.dropLast_eq_take, List.getElem?_take]

/-- The empty storage satisfies the invariant against the empty model. -/
theorem ArrInv_empty {α : Type} : ArrInv (ComponentArray.empty (α := α)) [] := by
  refine ⟨rfl, ?_, ?_, ?_, rfl, List.nodup_nil, List.nodup_nil, List.nodup_nil⟩
  · intro k j
    simp [ComponentArray.empty, List.lookup]
  · intro j k
    simp [ComponentArray.empty, List.lookup]
  · intro k
    simp [ComponentArray.empty, List.lookup]

/-- Distinct dense slots hold distinct entity indices. -/
theorem ArrInv.inj {α : Type} {ca : ComponentArray α} {m : List (Nat × α)}
    (hinv : ArrInv ca m) (j1 j2 : Nat) (h1 : j1 < ca.entities.length)
    (h2 : j2 < ca.entities.length) (he : ca.idxAt j1 = ca.idxAt j2) : j1 = j2 := by
  have l1 := (hinv.e2c_iff (ca.idxAt j1) j1).mpr ⟨h1, rfl⟩
  have l2 := (hinv.e2c_iff (ca.idxAt j1) j2).mpr ⟨h2, he.symm⟩
  rw [l1] at l2
  exact Option.some_inj.mp l2

/-- Lemma: `InsertData` preserves the packed-array invariant, updating the model
with the freshly assigned value. -/
theorem ArrInv_InsertData {α : Type} (ca cb : ComponentArray α) (m : List (Nat × α))
    (e : Handle) (v : α) (hinv : ArrInv ca m)
    (hins : ca.InsertData e v = some cb) :
    ArrInv cb (mapAssign m e.GetIndex v) := by
  simp only [ComponentArray.InsertData] at hins
  by_cases hg : (ca.entityToComponentMap.lookup e.GetIndex).isSome
  · rw [if_pos hg] at hins
    exact absurd hins (by simp)
  · rw [if_neg hg] at hins
    have habs : ca.entityToComponentMap.lookup e.GetIndex = none :=
      Option.not_isSome_iff_eq_none.mp hg
    have hmnone : m.lookup e.GetIndex = none := by
      rw [hinv.data_eq, habs]
      rfl
    obtain rfl : ({ components := ca.components ++ [v]
                    entities := ca.entities ++ [e]
                    entityToComponentMap :=
                      mapAssign ca.entityToComponentMap e.GetIndex ca.components.length
                    componentToEntityMap :=
                      mapAssign ca.componentToEntityMap ca.components.length e.GetIndex } :
        ComponentArray α) = cb := Option.some_inj.mp hins
    have hn : ca.components.length = ca.entities.length := hinv.len_eq.symm
    have hidxAt_lt : ∀ j, j < ca.entities.length →
        ((ca.entities ++ [e]).getD j Handle.invalid).GetIndex = ca.idxAt j := by
      intro j hj
      show _ = (ca.entities.getD j Handle.invalid).GetIndex
      rw [List.getD_eq_getElem?_getD, List.getElem?_append, if_pos hj,
        ← List.getD_eq_getElem?_getD]
    have hidxAt_n :
        ((ca.entities ++ [e]).getD ca.entities.length Handle.invalid).GetIndex
          = e.GetIndex := by
      rw [List.getD_eq_getElem?_getD, List.getElem?_append,
        if_neg (by omega), Nat.sub_self]
      rfl
    refine ⟨by simp [hinv.len_eq], ?_, ?_, ?_, ?_, ?_, ?_,
      nodup_keys_mapAssign _ _ _ hinv.m_nodup⟩
    · -- e2c_iff
      intro k j
      simp only [ComponentArray.idxAt]
      show (mapAssign ca.entityToComponentMap e.GetIndex ca.components.length).lookup k
          = some j ↔ j < (ca.entities ++ [e]).length ∧
            ((ca.entities ++ [e]).getD j Handle.invalid).GetIndex = k
      by_cases hk : k = e.GetIndex
      · subst hk
        rw [lookup_mapAssign_self]
        constructor
        · intro hj
          obtain rfl : ca.components.length = j := Option.some_inj.mp hj
          refine ⟨by simp [hn], ?_⟩
          rw [hn, hidxAt_n]
        · rintro ⟨hjlt, hjk⟩
          simp only [List.length_append] at hjlt
          rcases Nat.lt_or_ge j ca.entities.length with hjn | hjn
          · rw [hidxAt_lt j hjn] at hjk
            have := (hinv.e2c_iff _ j).mpr ⟨hjn, hjk⟩
            rw [habs] at this
            exact absurd this (by simp)
          · have hj : j = ca.entities.length := by
              simp only [List.length_cons, List.length_nil] at hjlt
              omega
            rw [hj, hn]
      · rw [lookup_mapAssign_ne _ _ _ _ hk]
        rw [hinv.e2c_iff k j]
        constructor
        · rintro ⟨hjlt, hjk⟩
          refine ⟨by simp only [List.length_append]; omega, ?_⟩
          rw [hidxAt_lt j hjlt, hjk]
        · rintro ⟨hjlt, hjk⟩
          rcases Nat.lt_or_ge j ca.entities.length with hjn | hjn
          · rw [hidxAt_lt j hjn] at hjk
            exact ⟨hjn, hjk⟩
          · have hj : j = ca.entities.length := by
              simp only [List.length_append, List.length_cons, List.length_nil] at hjlt
              omega
            rw [hj, hidxAt_n] at hjk
            exact absurd hjk.symm hk
    · -- c2e_iff
      intro j k
      simp only [ComponentArray.idxAt]
      show (mapAssign ca.componentToEntityMap ca.components.length e.GetIndex).lookup j
          = some k ↔ j < (ca.entities ++ [e]).length ∧
            ((ca.entities ++ [e]).getD j Handle.invalid).GetIndex = k
      by_cases hj : j = ca.components.length
      · subst hj
        rw [lookup_mapAssign_self]
        constructor
        · intro hk
          obtain rfl : e.GetIndex = k := Option.some_inj.mp hk
          refine ⟨by simp [hn], ?_⟩
          rw [hn, hidxAt_n]
        · rintro ⟨hjlt, hjk⟩
          rw [hn, hidxAt_n] at hjk
          rw [hjk]
      · rw [lookup_mapAssign_ne _ _ _ _ hj]
        rw [hinv.c2e_iff j k]
        constructor
        · rintro ⟨hjlt, hjk⟩
          refine ⟨by simp only [List.length_append]; omega, ?_⟩
          rw [hidxAt_lt j hjlt, hjk]
        · rintro ⟨hjlt, hjk⟩
          rcases Nat.lt_or_ge j ca.entities.length with hjn | hjn
          · rw [hidxAt_lt j hjn] at hjk
            exact ⟨hjn, hjk⟩
          · have hj2 : j = ca.entities.length := by
              simp only [List.length_append, List.length_cons, List.length_nil] at hjlt
              omega
            rw [← hn] at hj2
            exact absurd hj2 hj
    · -- data_eq
      intro k
      show (mapAssign m e.GetIndex v).lookup k =
        ((mapAssign ca.entityToComponentMap e.GetIndex ca.components.length).lookup k).bind
          (fun j => (ca.components ++ [v])[j]?)
      by_cases hk : k = e.GetIndex
      · subst hk
        rw [lookup_mapAssign_self, lookup_mapAssign_self]
        show some v = (ca.components ++ [v])[ca.components.length]?
        rw [List.getElem?_append, if_neg (by omega), Nat.sub_self]
        rfl
      · rw [lookup_mapAssign_ne _ _ _ _ hk, lookup_mapAssign_ne _ _ _ _ hk,
          hinv.data_eq k]
        cases hlk : ca.entityToComponentMap.lookup k with
        | none => rfl
        | some j =>
            have hjlt : j < ca.entities.length := ((hinv.e2c_iff k j).mp hlk).1
            show ca.components[j]? = (ca.components ++ [v])[j]?
            rw [List.getElem?_append, if_pos (by omega)]
    · -- size_eq
      show (ca.components ++ [v]).length = (mapAssign m e.GetIndex v).length
      rw [List.length_append, length_mapAssign_absent m _ v hmnone, ← hinv.size_eq]
      rfl
    · exact nodup_keys_mapAssign _ _ _ hinv.e2c_nodup
    · exact nodup_keys_mapAssign _ _ _ hinv.c2e_nodup

/-- Lemma: `RemoveData` preserves the packed-array invariant, erasing the removed
entity index from the model. -/
theorem ArrInv_RemoveData {α : Type} [Inhabited α] (ca : ComponentArray α)
    (m : List (Nat × α)) (e : Handle) (hinv : ArrInv ca m) :
    ArrInv (ca.RemoveData e) (mapErase m e.GetIndex) := by
  cases hlk : ca.entityToComponentMap.lookup e.GetIndex with
  | none =>
      have hres : ca.RemoveData e = ca := by
        simp only [ComponentArray.RemoveData, hlk]
      have hmnone : m.lookup e.GetIndex = none := by
        rw [hinv.data_eq, hlk]
        rfl
      rw [hres, mapErase_absent m e.GetIndex hmnone]
      exact hinv
  | some j0 =>
      obtain ⟨hj0lt, hj0idx⟩ := (hinv.e2c_iff e.GetIndex j0).mp hlk
      have hn : ca.components.length = ca.entities.length := hinv.len_eq.symm
      have hmsome : (m.lookup e.GetIndex).isSome := by
        rw [hinv.data_eq, hlk]
        show (ca.components[j0]?).isSome = true
        rw [List.getElem?_eq_getElem (by omega)]
        rfl
      have hlenm : (mapErase m e.GetIndex).length + 1 = m.length :=
        length_mapErase_present m e.GetIndex hmsome
      by_cases hij : j0 = ca.components.length - 1
      · -- removing the last dense slot: plain pop
        have hres : ca.RemoveData e =
            { components := ca.components.dropLast
              entities := ca.entities.dropLast
              entityToComponentMap := mapErase ca.entityToComponentMap e.GetIndex
              componentToEntityMap := mapErase ca.componentToEntityMap
                (ca.components.length - 1) } := by
          simp only [ComponentArray.RemoveData, hlk, if_pos hij]
        rw [hres]
        have hj0n : j0 = ca.entities.length - 1 := by omega
        have hidxAtD : ∀ j, j < ca.entities.length - 1 →
            ((ca.entities.dropLast).getD j Handle.invalid).GetIndex = ca.idxAt j := by
          intro j hj
          rw [List.getD_eq_getElem?_getD, getElem?_dropLast, if_pos hj,
            ← List.getD_eq_getElem?_getD]
          rfl
        refine ⟨by simp [hinv.len_eq], ?_, ?_, ?_, ?_,
          nodup_keys_mapErase _ _ hinv.e2c_nodup,
          nodup_keys_mapErase _ _ hinv.c2e_nodup,
          nodup_keys_mapErase _ _ hinv.m_nodup⟩
        · -- e2c_iff
          intro k j
          simp only [ComponentArray.idxAt]
          show (mapErase ca.entityToComponentMap e.GetIndex).lookup k = some j ↔
            j < (ca.entities.dropLast).length ∧
              ((ca.entities.dropLast).getD j Handle.invalid).GetIndex = k
          rw [List.length_dropLast]
          by_cases hk : k = e.GetIndex
          · subst hk
            rw [lookup_mapErase_self _ _ hinv.e2c_nodup]
            constructor
            · intro hc
              exact absurd hc (by simp)
            · rintro ⟨hjl, hjk⟩
              rw [hidxAtD j hjl] at hjk
              have hsome := (hinv.e2c_iff e.GetIndex j).mpr ⟨by omega, hjk⟩
              rw [hlk] at hsome
              have hjj0 : j = j0 := (Option.some_inj.mp hsome).symm
              omega
          · rw [lookup_mapErase_ne _ _ _ hk, hinv.e2c_iff k j]
            constructor
            · rintro ⟨hjl, hjk⟩
              have hjne : j ≠ j0 := by
                intro hc
                rw [hc, hj0idx] at hjk
                exact hk hjk.symm
              refine ⟨by omega, ?_⟩
              rw [hidxAtD j (by omega)]
              exact hjk
            · rintro ⟨hjl, hjk⟩
              rw [hidxAtD j hjl] at hjk
              exact ⟨by omega, hjk⟩
        · -- c2e_iff
          intro j k
          simp only [ComponentArray.idxAt]
          show (mapErase ca.componentToEntityMap (ca.components.length - 1)).lookup j
              = some k ↔ j < (ca.entities.dropLast).length ∧
              ((ca.entities.dropLast).getD j Handle.invalid).GetIndex = k
          rw [List.length_dropLast]
          by_cases hj : j = ca.components.length - 1
          · subst hj
            rw [lookup_mapErase_self _ _ hinv.c2e_nodup]
            constructor
            · intro hc
              exact absurd hc (by simp)
            · rintro ⟨hjl, _⟩
              omega
          · rw [lookup_mapErase_ne _ _ _ hj, hinv.c2e_iff j k]
            constructor
            · rintro ⟨hjl, hjk⟩
              refine ⟨by omega, ?_⟩
              rw [hidxAtD j (by omega)]
              exact hjk
            · rintro ⟨hjl, hjk⟩
              rw [hidxAtD j hjl] at hjk
              exact ⟨by omega, hjk⟩
        · -- data_eq
          intro k
          show (mapErase m e.GetIndex).lookup k =
            ((mapErase ca.entityToComponentMap e.GetIndex).lookup k).bind
              (fun j => (ca.components.dropLast)[j]?)
          by_cases hk : k = e.GetIndex
          · subst hk
            rw [lookup_mapErase_self _ _ hinv.m_nodup,
              lookup_mapErase_self _ _ hinv.e2c_nodup]
            rfl
          · rw [lookup_mapErase_ne _ _ _ hk, lookup_mapErase_ne _ _ _ hk,
              hinv.data_eq k]
            cases hlk2 : ca.entityToComponentMap.lookup k with
            | none => rfl
            | some j =>
                obtain ⟨hjl, hjk⟩ := (hinv.e2c_iff k j).mp hlk2
                have hjne : j ≠ j0 := by
                  intro hc
                  rw [hc, hj0idx] at hjk
                  exact hk hjk.symm
                show ca.components[j]? = (ca.components.dropLast)[j]?
                rw [getElem?_dropLast, if_pos (by omega)]
        · -- size_eq
          show (ca.components.dropLast).length = (mapErase m e.GetIndex).length
          rw [List.length_dropLast, ← hinv.size_eq] at *
          omega
      · -- removing an interior slot: swap with the last dense element
        obtain ⟨k1, hk1e⟩ :
            ∃ x, (ca.entities.getD (ca.components.length - 1) Handle.invalid).GetIndex
              = x := ⟨_, rfl⟩
        have hj0lt1 : j0 < ca.entities.length - 1 := by omega
        have hk1idx : ca.idxAt (ca.entities.length - 1) = k1 := by
          show (ca.entities.getD (ca.entities.length - 1) Handle.invalid).GetIndex = k1
          rw [← hn]
          exact hk1e
        have hk1ne : k1 ≠ e.GetIndex := by
          intro hc
          have := hinv.inj j0 (ca.entities.length - 1) hj0lt (by omega)
            (by rw [hj0idx, hk1idx, hc])
          omega
        have hlk1 : ca.entityToComponentMap.lookup k1 = some (ca.entities.length - 1) :=
          (hinv.e2c_iff k1 _).mpr ⟨by omega, hk1idx⟩
        have hres : ca.RemoveData e =
            { components := (ca.components.set j0
                (ca.components.getD (ca.components.length - 1) default)).dropLast
              entities := (ca.entities.set j0
                (ca.entities.getD (ca.components.length - 1) Handle.invalid)).dropLast
              entityToComponentMap := mapErase (mapAssign ca.entityToComponentMap
                ((ca.entities.getD (ca.components.length - 1) Handle.invalid).GetIndex) j0)
                e.GetIndex
              componentToEntityMap := mapErase (mapAssign ca.componentToEntityMap j0
                ((ca.entities.getD (ca.components.length - 1) Handle.invalid).GetIndex))
                (ca.components.length - 1) } := by
          simp only [ComponentArray.RemoveData, hlk, if_neg hij]
        rw [hres, hk1e]
        have hidxAt2 : ∀ j, j < ca.entities.length - 1 →
            (((ca.entities.set j0
                (ca.entities.getD (ca.components.length - 1) Handle.invalid)).dropLast).getD
              j Handle.invalid).GetIndex
              = if j = j0 then k1 else ca.idxAt j := by
          intro j hj
          rw [List.getD_eq_getElem?_getD, getElem?_dropLast, List.length_set,
            if_pos (by omega), getElem?_set_if]
          by_cases hjj : j = j0
          · rw [if_pos ⟨hjj, by omega⟩, if_pos hjj]
            show (ca.entities.getD (ca.components.length - 1) Handle.invalid).GetIndex = k1
            exact hk1e
          · rw [if_neg (fun hc => hjj hc.1), if_neg hjj, ← List.getD_eq_getElem?_getD]
            rfl
        have hcomp2 : ∀ j, j < ca.entities.length - 1 →
            ((ca.components.set j0
                (ca.components.getD (ca.components.length - 1) default)).dropLast)[j]?
              = if j = j0 then
                  some (ca.components.getD (ca.components.length - 1) default)
                else ca.components[j]? := by
          intro j hj
          rw [getElem?_dropLast, List.length_set, if_pos (by omega), getElem?_set_if]
          by_cases hjj : j = j0
          · rw [if_pos ⟨hjj, by omega⟩, if_pos hjj]
          · rw [if_neg (fun hc => hjj hc.1), if_neg hjj]
        refine ⟨by simp [hinv.len_eq], ?_, ?_, ?_, ?_,
          nodup_keys_mapErase _ _ (nodup_keys_mapAssign _ _ _ hinv.e2c_nodup),
          nodup_keys_mapErase _ _ (nodup_keys_mapAssign _ _ _ hinv.c2e_nodup),
          nodup_keys_mapErase _ _ hinv.m_nodup⟩
        · -- e2c_iff
          intro k j
          simp only [ComponentArray.idxAt, List.length_dropLast, List.length_set]
          show (mapErase (mapAssign ca.entityToComponentMap k1 j0) e.GetIndex).lookup k
              = some j ↔ j < ca.entities.length - 1 ∧
              (((ca.entities.set j0
                (ca.entities.getD (ca.components.length - 1) Handle.invalid)).dropLast).getD
                j Handle.invalid).GetIndex = k
          by_cases hk : k = e.GetIndex
          · subst hk
            rw [lookup_mapErase_self _ _ (nodup_keys_mapAssign _ _ _ hinv.e2c_nodup)]
            constructor
            · intro hc
              exact absurd hc (by simp)
            · rintro ⟨hjl, hjk⟩
              rw [hidxAt2 j hjl] at hjk
              by_cases hjj : j = j0
              · rw [if_pos hjj] at hjk
                exact absurd hjk hk1ne
              · rw [if_neg hjj] at hjk
                have hsome := (hinv.e2c_iff e.GetIndex j).mpr ⟨by omega, hjk⟩
                rw [hlk] at hsome
                exact absurd (Option.some_inj.mp hsome).symm hjj
          · rw [lookup_mapErase_ne _ _ _ hk]
            by_cases hkk1 : k = k1
            · rw [hkk1, lookup_mapAssign_self]
              constructor
              · intro hj
                obtain rfl : j0 = j := Option.some_inj.mp hj
                refine ⟨by omega, ?_⟩
                rw [hidxAt2 j0 (by omega), if_pos rfl]
              · rintro ⟨hjl, hjk⟩
                rw [hidxAt2 j hjl] at hjk
                by_cases hjj : j = j0
                · rw [hjj]
                · rw [if_neg hjj] at hjk
                  have hsome := (hinv.e2c_iff k1 j).mpr ⟨by omega, hjk⟩
                  rw [hlk1] at hsome
                  have hj2 : j = ca.entities.length - 1 := (Option.some_inj.mp hsome).symm
                  exact absurd hj2 (by omega)
            · rw [lookup_mapAssign_ne _ _ _ _ hkk1, hinv.e2c_iff k j]
              constructor
              · rintro ⟨hjl, hjk⟩
                have hjj0 : j ≠ j0 := by
                  intro hc
                  rw [hc, hj0idx] at hjk
                  exact hk hjk.symm
                have hjlast : j ≠ ca.entities.length - 1 := by
                  intro hc
                  rw [hc, hk1idx] at hjk
                  exact hkk1 hjk.symm
                refine ⟨by omega, ?_⟩
                rw [hidxAt2 j (by omega), if_neg hjj0]
                exact hjk
              · rintro ⟨hjl, hjk⟩
                rw [hidxAt2 j hjl] at hjk
                by_cases hjj : j = j0
                · rw [if_pos hjj] at hjk
                  exact absurd hjk.symm hkk1
                · rw [if_neg hjj] at hjk
                  exact ⟨by omega, hjk⟩
        · -- c2e_iff
          intro j k
          simp only [ComponentArray.idxAt, List.length_dropLast, List.length_set]
          show (mapErase (mapAssign ca.componentToEntityMap j0 k1)
              (ca.components.length - 1)).lookup j = some k ↔
              j < ca.entities.length - 1 ∧
              (((ca.entities.set j0
                (ca.entities.getD (ca.components.length - 1) Handle.invalid)).dropLast).getD
                j Handle.invalid).GetIndex = k
          by_cases hj : j = ca.components.length - 1
          · subst hj
            rw [lookup_mapErase_self _ _ (nodup_keys_mapAssign _ _ _ hinv.c2e_nodup)]
            constructor
            · intro hc
              exact absurd hc (by simp)
            · rintro ⟨hjl, _⟩
              omega
          · rw [lookup_mapErase_ne _ _ _ hj]
            by_cases hjj : j = j0
            · rw [hjj, lookup_mapAssign_self]
              constructor
              · intro hk2
                obtain rfl : k1 = k := Option.some_inj.mp hk2
                refine ⟨by omega, ?_⟩
                rw [hidxAt2 j0 (by omega), if_pos rfl]
              · rintro ⟨hjl, hjk⟩
                rw [hidxAt2 j0 (by omega), if_pos rfl] at hjk
                rw [hjk]
            · rw [lookup_mapAssign_ne _ _ _ _ hjj, hinv.c2e_iff j k]
              constructor
              · rintro ⟨hjl, hjk⟩
                refine ⟨by omega, ?_⟩
                rw [hidxAt2 j (by omega), if_neg hjj]
                exact hjk
              · rintro ⟨hjl, hjk⟩
                rw [hidxAt2 j hjl, if_neg hjj] at hjk
                exact ⟨by omega, hjk⟩
        · -- data_eq
          intro k
          show (mapErase m e.GetIndex).lookup k =
            ((mapErase (mapAssign ca.entityToComponentMap k1 j0) e.GetIndex).lookup
              k).bind (fun j => ((ca.components.set j0
                (ca.components.getD (ca.components.length - 1) default)).dropLast)[j]?)
          by_cases hk : k = e.GetIndex
          · subst hk
            rw [lookup_mapErase_self _ _ hinv.m_nodup,
              lookup_mapErase_self _ _ (nodup_keys_mapAssign _ _ _ hinv.e2c_nodup)]
            rfl
          · rw [lookup_mapErase_ne _ _ _ hk, lookup_mapErase_ne _ _ _ hk]
            by_cases hkk1 : k = k1
            · rw [hkk1, lookup_mapAssign_self, hinv.data_eq k1, hlk1]
              show ca.components[ca.entities.length - 1]? =
                ((ca.components.set j0
                  (ca.components.getD (ca.components.length - 1) default)).dropLast)[j0]?
              rw [hcomp2 j0 hj0lt1, if_pos rfl]
              have hle : ca.entities.length - 1 = ca.components.length - 1 := by omega
              rw [hle, List.getElem?_eq_getElem (by omega),
                List.getD_eq_getElem ca.components default (by omega)]
            · rw [lookup_mapAssign_ne _ _ _ _ hkk1, hinv.data_eq k]
              cases hlk2 : ca.entityToComponentMap.lookup k with
              | none => rfl
              | some j =>
                  obtain ⟨hjl, hjk⟩ := (hinv.e2c_iff k j).mp hlk2
                  have hjj0 : j ≠ j0 := by
                    intro hc
                    rw [hc, hj0idx] at hjk
                    exact hk hjk.symm
                  have hjlast : j ≠ ca.entities.length - 1 := by
                    intro hc
                    rw [hc, hk1idx] at hjk
                    exact hkk1 hjk.symm
                  show ca.components[j]? = ((ca.components.set j0
                    (ca.components.getD (ca.components.length - 1) default)).dropLast)[j]?
                  rw [hcomp2 j (by omega), if_neg hjj0]
        · -- size_eq
          show ((ca.components.set j0
              (ca.components.getD (ca.components.length - 1) default)).dropLast).length
            = (mapErase m e.GetIndex).length
          rw [List.length_dropLast, List.length_set]
          have := hinv.size_eq
          omega

/-- Trace execution from any invariant state preserves the invariant against
the folded model. -/
theorem ArrInv_runCompOps {α : Type} [Inhabited α] (ops : List (CompOp α))
    (ca cb : ComponentArray α) (m : List (Nat × α))
    (hrun : runCompOps ca ops = some cb) (hinv : ArrInv ca m) :
    ArrInv cb (ops.foldl specApply m) := by
  induction ops generalizing ca m with
  | nil => cases hrun; exact hinv
  | cons op rest ih =>
      rw [runCompOps] at hrun
      rcases Option.bind_eq_some.mp hrun with ⟨c1, hexec, hrest⟩
      rw [List.foldl_cons]
      cases op with
      | ins e v =>
          exact ih c1 (mapAssign m e.GetIndex v) hrest
            (ArrInv_InsertData ca c1 m e v hinv hexec)
      | rem e =>
          obtain rfl : ca.RemoveData e = c1 := Option.some_inj.mp hexec
          exact ih _ (mapErase m e.GetIndex) hrest (ArrInv_RemoveData ca m e hinv)

/-- Claim C4: packed-array integrity: after any successful sequence of
`InsertData`/`RemoveData` calls from an empty `ComponentArray` (success
encodes `InsertData`'s no-duplicate precondition), every entity currently
holding the component reads back, via `GetData`, the value last inserted for
it (`GetData?` coincides with the lookup of the last-inserted model), the
dense component count equals the number of holders, the dense arrays are
parallel and duplicate-free (gap-freedom is inherent: they are lists indexed
by `[0, size)`), and the two index maps are mutually inverse: both are
exactly the graph of the dense entity array. -/
theorem C4_packed_array_integrity {α : Type} [Inhabited α]
    (ops : List (CompOp α)) (ca : ComponentArray α)
    (hrun : runCompOps ComponentArray.empty ops = some ca) :
    (∀ e : Handle, ca.GetData? e = (specModel ops).lookup e.GetIndex) ∧
    ca.Size = (specModel ops).length ∧
    ca.entities.length = ca.components.length ∧
    (ca.entities.map Handle.GetIndex).Nodup ∧
    (∀ k j, ca.entityToComponentMap.lookup k = some j ↔
      (j < ca.entities.length ∧ ca.idxAt j = k)) ∧
    (∀ j k, ca.componentToEntityMap.lookup j = some k ↔
      (j < ca.entities.length ∧ ca.idxAt j = k)) := by
  have hinv : ArrInv ca (specModel ops) :=
    ArrInv_runCompOps ops ComponentArray.empty ca [] hrun ArrInv_empty
  refine ⟨?_, hinv.size_eq, hinv.len_eq, ?_, hinv.e2c_iff, hinv.c2e_iff⟩
  · intro e
    rw [ComponentArray.GetData?, hinv.data_eq e.GetIndex]
  · rw [List.Nodup, List.pairwise_iff_getElem]
    intro i j hi hj hij
    simp only [List.length_map] at hi hj
    intro hc
    have hgi : ca.idxAt i = ca.idxAt j := by
      show (ca.entities.getD i Handle.invalid).GetIndex
          = (ca.entities.getD j Handle.invalid).GetIndex
      rw [List.getD_eq_getElem ca.entities Handle.invalid hi,
        List.getD_eq_getElem ca.entities Handle.invalid hj]
      simpa using hc
    have := hinv.inj i j hi hj hgi
    omega

/-- Witness for C4 at the concrete trace `C4ops`. -/
theorem C4_packed_array_integrity_witness :
    (ComponentArray.mk [7] [Handle.Create 1 0] [(1, 0)] [(0, 1)]).GetData?
        (Handle.Create 1 0) = some 7 ∧
    (ComponentArray.mk [7] [Handle.Create 1 0] [(1, 0)] [(0, 1)]).Size = 1 := by
  have h := C4_packed_array_integrity C4ops
    (ComponentArray.mk [7] [Handle.Create 1 0] [(1, 0)] [(0, 1)]) (by decide)
  constructor
  · rw [h.1 (Handle.Create 1 0)]
    decide
  · rw [h.2.1]
    decide

/-- The match test holds exactly when the system signature is a subset of
the entity signature. -/
theorem sigMatches_iff_subset (entitySig sysSig : Signature) :
    sigMatches entitySig sysSig = true ↔ sysSig ⊆ entitySig := by
  rw [sigMatches, beq_iff_eq, Finset.inter_eq_right]

/-- A successful lookup witnesses membership of the binding. -/
theorem lookup_mem {β : Type} (m : List (Nat × β)) (k : Nat) (v : β)
    (h : m.lookup k = some v) : (k, v) ∈ m := by
  induction m with
  | nil => exact absurd h (by simp [List.lookup])
  | cons hd rest ih =>
      obtain ⟨k2, v2⟩ := hd
      by_cases h2 : k = k2
      · subst h2
        rw [lookup_cons_self] at h
        obtain rfl : v2 = v := Option.some_inj.mp h
        exact List.mem_cons_self _ _
      · rw [lookup_cons_ne _ _ _ _ h2] at h
        exact List.mem_cons_of_mem _ (ih h)

/-- The signature loop only adds bindings for types that had none: existing
bindings survive untouched. -/
theorem escGo_sigs_stable (e : Handle) (sig : Signature)
    (systems : List (Nat × Finset Handle)) (sigs : List (Nat × Signature))
    (k : Nat) (v : Signature) (hk : sigs.lookup k = some v) :
    (SystemManagerState.escGo e sig systems sigs).2.lookup k = some v := by
  induction systems generalizing sigs with
  | nil => exact hk
  | cons hd rest ih =>
      obtain ⟨sysId, ents⟩ := hd
      rw [SystemManagerState.escGo]
      cases hlk : sigs.lookup sysId with
      | some w =>
          simp only [hlk]
          exact ih sigs hk
      | none =>
          simp only [hlk]
          apply ih
          have hne : k ≠ sysId := by
            intro hc
            rw [hc, hlk] at hk
            exact absurd hk (by simp)
          rw [lookup_cons_ne _ _ _ _ hne]
          exact hk

/-- After the signature loop, every entry of the resulting system list holds
the entity iff the entity signature matches that system's (final) required
signature. -/
theorem escGo_membership (e : Handle) (sig : Signature)
    (systems : List (Nat × Finset Handle)) (sigs : List (Nat × Signature)) :
    ∀ (k : Nat) (ents : Finset Handle),
      (k, ents) ∈ (SystemManagerState.escGo e sig systems sigs).1 →
        (e ∈ ents ↔ sigMatches sig
          (((SystemManagerState.escGo e sig systems sigs).2.lookup k).getD ∅) = true) := by
  induction systems generalizing sigs with
  | nil =>
      intro k ents hmem
      exact absurd hmem (by simp [SystemManagerState.escGo])
  | cons hd rest ih =>
      obtain ⟨sysId, ents0⟩ := hd
      intro k ents hmem
      rw [SystemManagerState.escGo] at hmem ⊢
      cases hlk : sigs.lookup sysId with
      | some w =>
          simp only [hlk] at hmem ⊢
          rcases List.mem_cons.mp hmem with heq | htail
          · obtain ⟨rfl, rfl⟩ : sysId = k ∧
                (if sigMatches sig ((some w).getD ∅) then insert e ents0
                  else ents0.erase e) = ents := by
              have h1 := congrArg Prod.fst heq.symm
              have h2 := congrArg Prod.snd heq.symm
              exact ⟨h1, h2⟩
            have hstable := escGo_sigs_stable e sig rest sigs sysId w hlk
            rw [hstable]
            by_cases ht : sigMatches sig ((some w).getD ∅) = true
            · rw [if_pos ht]
              simp only [Option.getD_some] at ht ⊢
              rw [ht]
              simp
            · rw [if_neg ht]
              simp only [Option.getD_some] at ht ⊢
              simp [Finset.not_mem_erase, Bool.eq_false_iff.mpr ht]
          · exact ih sigs k ents htail
      | none =>
          simp only [hlk] at hmem ⊢
          rcases List.mem_cons.mp hmem with heq | htail
          · obtain ⟨rfl, rfl⟩ : sysId = k ∧
                (if sigMatches sig ((none : Option Signature).getD ∅) then insert e ents0
                  else ents0.erase e) = ents := by
              have h1 := congrArg Prod.fst heq.symm
              have h2 := congrArg Prod.snd heq.symm
              exact ⟨h1, h2⟩
            have hstable := escGo_sigs_stable e sig rest
              ((sysId, (∅ : Signature)) :: sigs) sysId ∅
              (lookup_cons_self sysId ∅ sigs)
            rw [hstable]
            by_cases ht : sigMatches sig ((none : Option Signature).getD ∅) = true
            · rw [if_pos ht]
              simp only [Option.getD_none] at ht ⊢
              rw [Option.getD_some, ht]
              simp
            · rw [if_neg ht]
              simp only [Option.getD_none] at ht ⊢
              rw [Option.getD_some]
              simp [Finset.not_mem_erase, Bool.eq_false_iff.mpr ht]
          · exact ih ((sysId, (∅ : Signature)) :: sigs) k ents htail

/-- After `EntityDestroyed`, the entity is in no system's set. -/
theorem entityDestroyed_not_mem (sm : SystemManagerState) (e : Handle)
    (k : Nat) (ents : Finset Handle)
    (h : (sm.EntityDestroyed e).systems.lookup k = some ents) : e ∉ ents := by
  have hmem := lookup_mem _ _ _ h
  simp only [SystemManagerState.EntityDestroyed, List.mem_map] at hmem
  obtain ⟨⟨k2, s2⟩, _, heq⟩ := hmem
  obtain rfl : s2.erase e = ents := congrArg Prod.snd heq
  exact Finset.not_mem_erase e s2

/-- After `RemoveData`, the removed entity index is absent from the index
map (the maps' keys are duplicate-free in every reachable storage). -/
theorem RemoveData_lookup_none {α : Type} [Inhabited α] (arr : ComponentArray α)
    (e : Handle) (hnd : (arr.entityToComponentMap.map Prod.fst).Nodup) :
    (arr.RemoveData e).entityToComponentMap.lookup e.GetIndex = none := by
  rw [ComponentArray.RemoveData]
  cases hlk : arr.entityToComponentMap.lookup e.GetIndex with
  | none => exact hlk
  | some j0 =>
      by_cases hij : j0 = arr.components.length - 1
      · simp only [if_pos hij]
        exact lookup_mapErase_self _ _ hnd
      · simp only [if_neg hij]
        exact lookup_mapErase_self _ _ (nodup_keys_mapAssign _ _ _ hnd)

/-- Case split for a successful `DestroyEntity`. -/
theorem DestroyEntity_cases (w : WorldState) (e : Handle) (w1 : WorldState)
    (h : w.DestroyEntity e = some w1) :
    ∃ pool1, w.entityManager.Release e = some pool1 ∧
      e.GetIndex < w.entitySignatures.length ∧
      w1 = { entityManager := pool1
             componentArrays := w.componentArrays.map (fun oa =>
               oa.map (fun a => a.EntityDestroyed e))
             entitySignatures := w.entitySignatures.set e.GetIndex ∅
             allEntities := WorldState.swapRemoveFirst w.allEntities e
             systemManager := w.systemManager.EntityDestroyed e } := by
  rw [WorldState.DestroyEntity] at h
  cases hrel : w.entityManager.Release e with
  | none =>
      simp only [hrel] at h
      exact absurd h (by simp)
  | some pool1 =>
      simp only [hrel] at h
      by_cases hlt : e.GetIndex < w.entitySignatures.length
      · rw [if_pos hlt] at h
        exact ⟨pool1, rfl, hlt, (Option.some_inj.mp h).symm⟩
      · rw [if_neg hlt] at h
        exact absurd h (by simp)

/-- Case split for a successful `AddComponent`. -/
theorem AddComponent_cases (w : WorldState) (t : Nat) (e : Handle) (v : Nat)
    (w1 : WorldState) (h : w.AddComponent t e v = some w1) :
    ∃ (ht : t < MAX_COMPONENTS) (arr1 : ComponentArray Nat),
      ((w.componentArrays.getD t none).getD ComponentArray.empty).InsertData e v
        = some arr1 ∧
      e.GetIndex < w.entitySignatures.length ∧
      w1 = { w with
              componentArrays := w.componentArrays.set t (some arr1)
              entitySignatures := w.entitySignatures.set e.GetIndex
                (insert (⟨t, ht⟩ : Fin MAX_COMPONENTS)
                  (w.entitySignatures.getD e.GetIndex ∅))
              systemManager := w.systemManager.EntitySignatureChanged e
                (insert (⟨t, ht⟩ : Fin MAX_COMPONENTS)
                  (w.entitySignatures.getD e.GetIndex ∅)) } := by
  rw [WorldState.AddComponent] at h
  by_cases ht : t < MAX_COMPONENTS
  · rw [dif_pos ht] at h
    refine ⟨ht, ?_⟩
    cases hins : ((w.componentArrays.getD t none).getD ComponentArray.empty).InsertData e v with
    | none =>
        simp only [hins] at h
        exact absurd h (by simp)
    | some arr1 =>
        simp only [hins] at h
        by_cases hlt : e.GetIndex < w.entitySignatures.length
        · rw [if_pos hlt] at h
          exact ⟨arr1, rfl, hlt, (Option.some_inj.mp h).symm⟩
        · rw [if_neg hlt] at h
          exact absurd h (by simp)
  · rw [dif_neg ht] at h
    exact absurd h (by simp)

/-- Case split for a successful `RemoveComponent`. -/
theorem RemoveComponent_cases (w : WorldState) (t : Nat) (e : Handle)
    (w1 : WorldState) (h : w.RemoveComponent t e = some w1) :
    ∃ (ht : t < MAX_COMPONENTS),
      e.GetIndex < w.entitySignatures.length ∧
      w1 = { w with
              componentArrays := w.componentArrays.set t
                (some (((w.componentArrays.getD t none).getD
                  ComponentArray.empty).RemoveData e))
              entitySignatures := w.entitySignatures.set e.GetIndex
                ((w.entitySignatures.getD e.GetIndex ∅).erase ⟨t, ht⟩)
              systemManager := w.systemManager.EntitySignatureChanged e
                ((w.entitySignatures.getD e.GetIndex ∅).erase ⟨t, ht⟩) } := by
  rw [WorldState.RemoveComponent] at h
  by_cases ht : t < MAX_COMPONENTS
  · rw [dif_pos ht] at h
    refine ⟨ht, ?_⟩
    by_cases hlt : e.GetIndex < w.entitySignatures.length
    · rw [if_pos hlt] at h
      exact ⟨hlt, (Option.some_inj.mp h).symm⟩
    · rw [if_neg hlt] at h
      exact absurd h (by simp)
  · rw [dif_neg ht] at h
    exact absurd h (by simp)

/-- Destroying the invalid sentinel always reaches the unguarded
`entitySignatures_[0xFFFFFFFF]` access: with any signature vector shorter
than `2^32` entries (the source resizes it to 10000) the access is out of
bounds. -/
theorem destroyEntity_invalid_oob (w : WorldState)
    (hlen : w.entitySignatures.length ≤ U32 - 1) :
    w.DestroyEntity INVALID_ENTITY = none := by
  rw [WorldState.DestroyEntity]
  have hrel : w.entityManager.Release INVALID_ENTITY = some w.entityManager := by
    rw [HandlePool.Release, if_pos (by decide)]
  have hgi : INVALID_ENTITY.GetIndex = U32 - 1 := by decide
  simp only [hrel, hgi]
  rw [if_neg (by omega)]

/-- Lemma: `DestroyEntity` never changes the length of the signature vector. -/
theorem destroyEntity_sig_length (w w1 : WorldState) (e : Handle)
    (h : w.DestroyEntity e = some w1) :
    w1.entitySignatures.length = w.entitySignatures.length := by
  obtain ⟨pool1, _, _, rfl⟩ := DestroyEntity_cases w e w1 h
  simp

/-- Iterated destruction aborts as soon as it reaches the invalid sentinel
in the list. -/
theorem destroyAll_invalid_mem (l : List Handle) (w : WorldState)
    (hmem : INVALID_ENTITY ∈ l) (hlen : w.entitySignatures.length ≤ U32 - 1) :
    WorldState.destroyAll l w = none := by
  induction l generalizing w with
  | nil => exact absurd hmem (by simp)
  | cons e rest ih =>
      rw [WorldState.destroyAll]
      rcases List.mem_cons.mp hmem with rfl | hrest
      · rw [destroyEntity_invalid_oob w hlen]
        rfl
      · cases hdes : w.DestroyEntity e with
        | none => rfl
        | some w1 =>
            show (some w1).bind (WorldState.destroyAll rest) = none
            show WorldState.destroyAll rest w1 = none
            exact ih w1 hrest (by rw [destroyEntity_sig_length w w1 e hdes]; exact hlen)

/-- Membership in a system's set immediately after `EntitySignatureChanged`
is exactly the subset test against the (final) stored system signature. -/
theorem esc_membership_subset (sm : SystemManagerState) (e : Handle)
    (sig : Signature) (sysId : Nat) (ents : Finset Handle)
    (hl : (sm.EntitySignatureChanged e sig).systems.lookup sysId = some ents) :
    e ∈ ents ↔
      (((sm.EntitySignatureChanged e sig).signatures.lookup sysId).getD ∅) ⊆ sig := by
  have hmem := lookup_mem _ _ _ hl
  have h := escGo_membership e sig sm.systems sm.signatures sysId ents hmem
  rw [h, sigMatches_iff_subset]
  exact Iff.rfl

/-- Releasing a handle that passed the release asserts leaves that very
handle invalid: its slot version has moved past it (32-bit increment). -/
theorem Release_invalidates (p q : HandlePool) (e : Handle)
    (hver : ∀ x ∈ p.versions, x < U32)
    (hvlen : p.versions.length = p.capacity)
    (hrel : p.Release e = some q) :
    q.IsValid e = false := by
  rcases Release_cases p e q hrel with ⟨hvf, rfl⟩ | ⟨hv, hltc, hvalid, rfl⟩
  · rw [HandlePool.IsValid, if_pos (by simp [hvf])]
  · have hidxlen : e.GetIndex < p.versions.length := by rw [hvlen]; exact hltc
    rw [HandlePool.IsValid] at hvalid
    rw [if_neg (by simp [hv]), if_neg (by simpa using Nat.not_le_of_lt hltc)] at hvalid
    have hveq : p.versions.getD e.GetIndex 0 = e.GetVersion := by
      exact beq_iff_eq.mp hvalid
    have hvlt : p.versions.getD e.GetIndex 0 < U32 := by
      refine hver _ ?_
      rw [List.getD_eq_getElem p.versions 0 hidxlen]
      exact List.getElem_mem hidxlen
    have hU : 2 ≤ U32 := by norm_num [U32]
    show (if !e.IsValid then false
      else if decide (p.capacity ≤ e.GetIndex) then false
      else ((p.versions.set e.GetIndex
        ((p.versions.getD e.GetIndex 0 + 1) % U32)).getD e.GetIndex 0 == e.GetVersion))
        = false
    rw [if_neg (by simp [hv]), if_neg (by simpa using Nat.not_le_of_lt hltc)]
    rw [getD_set, if_pos ⟨rfl, hidxlen⟩]
    refine beq_eq_false_iff_ne.mpr ?_
    rw [← hveq]
    rcases Nat.lt_or_ge (p.versions.getD e.GetIndex 0 + 1) U32 with hlt2 | hge
    · rw [Nat.mod_eq_of_lt hlt2]
      omega
    · have hsum : p.versions.getD e.GetIndex 0 + 1 = U32 := by omega
      rw [hsum, Nat.mod_self]
      omega

/-- Reading a mapped option list: the transformer commutes with `getD`. -/
theorem getD_map_option {γ : Type} (l : List (Option γ)) (g : γ → γ) (t : Nat) :
    (l.map (fun oa => oa.map g)).getD t none = (l.getD t none).map g := by
  by_cases ht : t < l.length
  · rw [List.getD_eq_getElem _ _ (by simpa using ht), List.getD_eq_getElem _ _ ht,
      List.getElem_map]
  · rw [List.getD_eq_getElem?_getD, List.getD_eq_getElem?_getD,
      List.getElem?_eq_none (by simpa using Nat.le_of_not_lt ht),
      List.getElem?_eq_none (Nat.le_of_not_lt ht)]
    rfl

/-- Claim C3 (the code fails it): `World::DestroyEntity` on the invalid
sentinel reaches the unguarded `entitySignatures_[e.GetIndex()]` with index
`2^32 - 1` against a 10000-entry vector — an out-of-bounds access, modelled
as `none` — and `DestroyEntity` on an already-destroyed entity fails
`HandlePool::Release`'s `IsValid` assertion, also `none`: neither call is
the crash-free no-op the claim demands. -/
theorem C3_destroy_invalid_crashes :
    WorldState.init.DestroyEntity INVALID_ENTITY = none ∧
    runWorld (WorldState.initWithCapacity 4)
      [.create, .destroy (Handle.Create 0 0), .destroy (Handle.Create 0 0)] = none := by
  constructor
  · apply destroyEntity_invalid_oob
    show (List.replicate 10000 (∅ : Signature)).length ≤ U32 - 1
    rw [List.length_replicate]
    norm_num [U32]
  · decide

/-- Counterexample to claim C2 as stated: destroy an entity, let a new
entity reuse its index and hold component 0; the stale handle then reports
`IsAlive = false` but `HasComponent = true` (presence is keyed by index
only), where the claim demands `false` for every component type. -/
theorem C2_stale_handle_counterexample :
    (runWorld (WorldState.initWithCapacity 4)
      [.create, .addComp 0 (Handle.Create 0 0) 1, .destroy (Handle.Create 0 0),
       .create, .addComp 0 (Handle.Create 0 1) 2]).map
      (fun w => (w.IsAlive (Handle.Create 0 0), w.HasComponent 0 (Handle.Create 0 0)))
      = some (false, true) := by
  decide

/-- Claim C2 (amended): immediately after a successful `DestroyEntity(e)`,
`IsAlive(e)` is false and `HasComponent<T>(e)` is false for every type `T`
(both are total reads, no abort); the stale-false guarantee holds only until
the index is reused by an entity holding `T`. The hypotheses are invariants
of every reachable world: 32-bit version counters, a version slot per pool
slot, and duplicate-free index-map keys. -/
theorem C2_stale_reads_after_destroy (w w1 : WorldState) (e : Handle)
    (hver : ∀ x ∈ w.entityManager.versions, x < U32)
    (hvlen : w.entityManager.versions.length = w.entityManager.capacity)
    (hnd : ∀ oa ∈ w.componentArrays, ∀ arr, oa = some arr →
      (arr.entityToComponentMap.map Prod.fst).Nodup)
    (hdes : w.DestroyEntity e = some w1) :
    w1.IsAlive e = false ∧ ∀ t, w1.HasComponent t e = false := by
  obtain ⟨pool1, hrel, hlt, rfl⟩ := DestroyEntity_cases w e w1 hdes
  constructor
  · exact Release_invalidates w.entityManager pool1 e hver hvlen hrel
  · intro t
    show (if t < (w.componentArrays.map (fun oa =>
        oa.map (fun a => a.EntityDestroyed e))).length then
      (match (w.componentArrays.map (fun oa =>
          oa.map (fun a => a.EntityDestroyed e))).getD t none with
        | none => false
        | some arr => arr.HasData e)
      else false) = false
    by_cases htl : t < w.componentArrays.length
    · rw [if_pos (by simpa using htl), getD_map_option]
      cases hslot : w.componentArrays.getD t none with
      | none => rfl
      | some arr =>
          show (arr.EntityDestroyed e).HasData e = false
          have hmem : some arr ∈ w.componentArrays := by
            rw [← hslot, List.getD_eq_getElem _ _ htl]
            exact List.getElem_mem htl
          have hnda := hnd (some arr) hmem arr rfl
          show ((arr.RemoveData e).entityToComponentMap.lookup e.GetIndex).isSome = false
          rw [RemoveData_lookup_none arr e hnda]
          rfl
    · rw [if_neg (by simpa using htl)]

/-- Witness for the amended C2 at a concrete destroy. -/
theorem C2_stale_reads_after_destroy_witness :
    C2w1.IsAlive (Handle.Create 0 0) = false ∧
    C2w1.HasComponent 0 (Handle.Create 0 0) = false := by
  have h := C2_stale_reads_after_destroy C2w C2w1 (Handle.Create 0 0)
    (by decide) (by decide) (by decide) (by decide)
  exact ⟨h.1, h.2 0⟩

/-- Counterexample to claim C5 as stated: a system registered with the empty
signature matches every entity, but a freshly created second entity is not
in its set even immediately after an `AddComponent` call (only the mutated
entity's membership is recomputed). -/
theorem C5_signature_consistency_counterexample :
    (runWorld (WorldState.initWithCapacity 4)
      [.regSystem 0, .setSig 0 ∅, .create, .create,
       .addComp 0 (Handle.Create 0 0) 7]).map
      (fun w => (decide (((w.systemManager.signatures.lookup 0).getD ∅)
          ⊆ w.entitySignatures.getD (Handle.Create 1 0).GetIndex ∅),
        decide ((Handle.Create 1 0) ∈ (w.systemManager.systems.lookup 0).getD ∅)))
      = some (true, false) := by
  decide

/-- Claim C5 (amended): immediately after every `AddComponent` or
`RemoveComponent` on entity `e`, `e` belongs to each registered system's set
iff the system's stored signature is a subset of `e`'s new signature; and
immediately after `DestroyEntity(e)`, `e` belongs to no system's set. (The
sets of entities other than the mutated one are not recomputed, which is
what fails in the unamended claim.) -/
theorem C5_membership_of_mutated_entity (w : WorldState) (t : Nat) (e : Handle)
    (v : Nat) :
    (∀ w1, w.AddComponent t e v = some w1 →
      ∀ sysId ents, w1.systemManager.systems.lookup sysId = some ents →
        (e ∈ ents ↔ ((w1.systemManager.signatures.lookup sysId).getD ∅)
          ⊆ w1.entitySignatures.getD e.GetIndex ∅)) ∧
    (∀ w1, w.RemoveComponent t e = some w1 →
      ∀ sysId ents, w1.systemManager.systems.lookup sysId = some ents →
        (e ∈ ents ↔ ((w1.systemManager.signatures.lookup sysId).getD ∅)
          ⊆ w1.entitySignatures.getD e.GetIndex ∅)) ∧
    (∀ w1, w.DestroyEntity e = some w1 →
      ∀ sysId ents, w1.systemManager.systems.lookup sysId = some ents →
        e ∉ ents) := by
  refine ⟨?_, ?_, ?_⟩
  · intro w1 hadd sysId ents hl
    obtain ⟨ht, arr1, hins, hlt, rfl⟩ := AddComponent_cases w t e v w1 hadd
    show e ∈ ents ↔
      (((w.systemManager.EntitySignatureChanged e
          (insert ⟨t, ht⟩ (w.entitySignatures.getD e.GetIndex ∅))).signatures.lookup
        sysId).getD ∅)
        ⊆ (w.entitySignatures.set e.GetIndex
            (insert ⟨t, ht⟩ (w.entitySignatures.getD e.GetIndex ∅))).getD e.GetIndex ∅
    rw [getD_set, if_pos ⟨rfl, hlt⟩]
    exact esc_membership_subset w.systemManager e _ sysId ents hl
  · intro w1 hrem sysId ents hl
    obtain ⟨ht, hlt, rfl⟩ := RemoveComponent_cases w t e w1 hrem
    show e ∈ ents ↔
      (((w.systemManager.EntitySignatureChanged e
          ((w.entitySignatures.getD e.GetIndex ∅).erase ⟨t, ht⟩)).signatures.lookup
        sysId).getD ∅)
        ⊆ (w.entitySignatures.set e.GetIndex
            ((w.entitySignatures.getD e.GetIndex ∅).erase ⟨t, ht⟩)).getD e.GetIndex ∅
    rw [getD_set, if_pos ⟨rfl, hlt⟩]
    exact esc_membership_subset w.systemManager e _ sysId ents hl
  · intro w1 hdes sysId ents hl
    obtain ⟨pool1, hrel, hlt, rfl⟩ := DestroyEntity_cases w e w1 hdes
    exact entityDestroyed_not_mem w.systemManager e sysId ents hl

/-- Witness for the amended C5 at a concrete `AddComponent`. -/
theorem C5_membership_of_mutated_entity_witness :
    (Handle.Create 0 0) ∈ ((C5w1.systemManager.systems.lookup 0).getD ∅) ↔
      ((C5w1.systemManager.signatures.lookup 0).getD ∅)
        ⊆ C5w1.entitySignatures.getD (Handle.Create 0 0).GetIndex ∅ :=
  (C5_membership_of_mutated_entity C5w 0 (Handle.Create 0 0) 7).1 C5w1 rfl
    0 ((C5w1.systemManager.systems.lookup 0).getD ∅) rfl

/-- Claim C6: query exactness: the query walks the dense entity array of the
first listed component type and yields exactly its entities for which
`HasComponent` holds for every listed type; in the three-entity scenario
(A and C hold X = 0, B and C hold Y = 1), `Query<X,Y>` yields exactly `{C}`. -/
theorem C6_query_exactness :
    (∀ (w : WorldState) (t : Nat) (rest : List Nat) (e : Handle),
      e ∈ w.queryEntities (t :: rest) ↔
        (e ∈ WorldState.denseOf w t ∧
          ∀ c ∈ t :: rest, w.HasComponent c e = true)) ∧
    (runWorld (WorldState.initWithCapacity 4)
      [.create, .create, .create, .addComp 0 (Handle.Create 0 0) 0,
       .addComp 0 (Handle.Create 2 0) 0, .addComp 1 (Handle.Create 1 0) 0,
       .addComp 1 (Handle.Create 2 0) 0]).map (fun w => w.queryEntities [0, 1])
      = some [Handle.Create 2 0] := by
  constructor
  · intro w t rest e
    simp [WorldState.queryEntities, List.mem_filter, List.all_eq_true]
  · decide

/-- Claim C9: `AddComponent` never checks liveness: for any handle whose
index is in signature range and whose index does not currently hold `T`,
the call succeeds — `HasComponent` becomes true, the signature bit is set,
and system membership is recomputed for the handle — with no `IsAlive`
test anywhere in the hypotheses (the witness instantiates a handle that was
never returned by `CreateEntity` and is not alive). -/
theorem C9_addComponent_skips_liveness (w : WorldState) (t : Nat) (e : Handle)
    (v : Nat) (ht : t < MAX_COMPONENTS)
    (hlen : w.componentArrays.length = MAX_COMPONENTS)
    (he : e.GetIndex < w.entitySignatures.length)
    (habs : w.HasComponent t e = false) :
    (w.AddComponent t e v).isSome = true ∧
    ((w.AddComponent t e v).getD w).HasComponent t e = true ∧
    (⟨t, ht⟩ : Fin MAX_COMPONENTS)
      ∈ ((w.AddComponent t e v).getD w).entitySignatures.getD e.GetIndex ∅ ∧
    (∀ sysId ents,
      ((w.AddComponent t e v).getD w).systemManager.systems.lookup sysId
          = some ents →
        (e ∈ ents ↔
          ((((w.AddComponent t e v).getD w).systemManager.signatures.lookup
            sysId).getD ∅)
            ⊆ ((w.AddComponent t e v).getD w).entitySignatures.getD e.GetIndex ∅)) := by
  have htl : t < w.componentArrays.length := by omega
  have hlkn : ((w.componentArrays.getD t none).getD
      ComponentArray.empty).entityToComponentMap.lookup e.GetIndex = none := by
    rw [WorldState.HasComponent, if_pos (by simpa using htl)] at habs
    cases hslot : w.componentArrays.getD t none with
    | none => rfl
    | some arr =>
        rw [hslot] at habs
        have habs2 : arr.HasData e = false := habs
        rw [ComponentArray.HasData] at habs2
        show arr.entityToComponentMap.lookup e.GetIndex = none
        exact Option.not_isSome_iff_eq_none.mp (by simp [habs2])
  have hins : ((w.componentArrays.getD t none).getD
      ComponentArray.empty).InsertData e v = some
        { components := ((w.componentArrays.getD t none).getD
            ComponentArray.empty).components ++ [v]
          entities := ((w.componentArrays.getD t none).getD
            ComponentArray.empty).entities ++ [e]
          entityToComponentMap := mapAssign ((w.componentArrays.getD t none).getD
            ComponentArray.empty).entityToComponentMap e.GetIndex
            ((w.componentArrays.getD t none).getD
              ComponentArray.empty).components.length
          componentToEntityMap := mapAssign ((w.componentArrays.getD t none).getD
            ComponentArray.empty).componentToEntityMap
            ((w.componentArrays.getD t none).getD
              ComponentArray.empty).components.length e.GetIndex } := by
    rw [ComponentArray.InsertData, if_neg (by rw [hlkn]; simp)]
  have hadd : w.AddComponent t e v = some
      { w with
          componentArrays := w.componentArrays.set t (some
            { components := ((w.componentArrays.getD t none).getD
                ComponentArray.empty).components ++ [v]
              entities := ((w.componentArrays.getD t none).getD
                ComponentArray.empty).entities ++ [e]
              entityToComponentMap := mapAssign ((w.componentArrays.getD t none).getD
                ComponentArray.empty).entityToComponentMap e.GetIndex
                ((w.componentArrays.getD t none).getD
                  ComponentArray.empty).components.length
              componentToEntityMap := mapAssign ((w.componentArrays.getD t none).getD
                ComponentArray.empty).componentToEntityMap
                ((w.componentArrays.getD t none).getD
                  ComponentArray.empty).components.length e.GetIndex })
          entitySignatures := w.entitySignatures.set e.GetIndex
            (insert (⟨t, ht⟩ : Fin MAX_COMPONENTS)
              (w.entitySignatures.getD e.GetIndex ∅))
          systemManager := w.systemManager.EntitySignatureChanged e
            (insert (⟨t, ht⟩ : Fin MAX_COMPONENTS)
              (w.entitySignatures.getD e.GetIndex ∅)) } := by
    rw [WorldState.AddComponent, dif_pos ht]
    simp only [hins]
    rw [if_pos he]
  rw [hadd]
  refine ⟨rfl, ?_, ?_, ?_⟩
  · show (if t < (w.componentArrays.set t _).length then _ else false) = true
    rw [if_pos (by simpa using htl)]
    show (match (w.componentArrays.set t _).getD t none with
      | none => false
      | some arr => arr.HasData e) = true
    rw [getD_set, if_pos ⟨rfl, htl⟩]
    show ((mapAssign _ e.GetIndex _).lookup e.GetIndex).isSome = true
    rw [lookup_mapAssign_self]
    rfl
  · show (⟨t, ht⟩ : Fin MAX_COMPONENTS)
      ∈ (w.entitySignatures.set e.GetIndex _).getD e.GetIndex ∅
    rw [getD_set, if_pos ⟨rfl, he⟩]
    exact Finset.mem_insert_self _ _
  · intro sysId ents hl
    show e ∈ ents ↔ _ ⊆ (w.entitySignatures.set e.GetIndex _).getD e.GetIndex ∅
    rw [getD_set, if_pos ⟨rfl, he⟩]
    exact esc_membership_subset w.systemManager e _ sysId ents hl

/-- Witness for C9 at a handle never returned by `CreateEntity` (index 2,
version 9) which is not alive. -/
theorem C9_addComponent_skips_liveness_witness :
    (WorldState.initWithCapacity 4).IsAlive (Handle.Create 2 9) = false ∧
    ((WorldState.initWithCapacity 4).AddComponent 0 (Handle.Create 2 9) 42).isSome
      = true ∧
    (((WorldState.initWithCapacity 4).AddComponent 0 (Handle.Create 2 9) 42).getD
      (WorldState.initWithCapacity 4)).HasComponent 0 (Handle.Create 2 9) = true := by
  have h := C9_addComponent_skips_liveness (WorldState.initWithCapacity 4) 0
    (Handle.Create 2 9) 42 (by decide) (by decide) (by decide) (by decide)
  exact ⟨by decide, h.1, h.2.1⟩

/-- Claim C10: when the entity pool is exhausted, `CreateEntity` returns the
invalid handle but still appends it to the tracked entity list; a later
`Clear` then invokes `DestroyEntity` on `INVALID_ENTITY`, which aborts on
the out-of-bounds signature access (the failure is not side-effect-free at
the `World` level). -/
theorem C10_create_exhaustion_tracked :
    (∀ w : WorldState, w.entityManager.freeCount = 0 →
      w.CreateEntity = (INVALID_ENTITY,
        { w with allEntities := w.allEntities ++ [INVALID_ENTITY] })) ∧
    (∀ w : WorldState, INVALID_ENTITY ∈ w.allEntities →
      w.entitySignatures.length ≤ U32 - 1 → w.Clear = none) := by
  constructor
  · intro w h0
    rw [WorldState.CreateEntity]
    simp only [Allocate_exhausted w.entityManager h0]
    rfl
  · intro w hmem hlen
    rw [WorldState.Clear]
    exact destroyAll_invalid_mem w.allEntities w hmem hlen

/-- Witness for C10 at a concrete exhausted world. -/
theorem C10_create_exhaustion_tracked_witness :
    C10w.CreateEntity = (INVALID_ENTITY,
      { C10w with allEntities := [Handle.Create 0 0, INVALID_ENTITY] }) ∧
    WorldState.Clear
      { C10w with allEntities := [Handle.Create 0 0, INVALID_ENTITY] } = none := by
  constructor
  · exact C10_create_exhaustion_tracked.1 C10w rfl
  · exact C10_create_exhaustion_tracked.2 _ (by decide) (by decide)

end GEngine

